import Mathlib

/-!
Shallow embedding of the `json-generator` library (`src/index.js`) and a
verification of its specification claims.

Modelling conventions:
* JS values that can appear in schemas, parsed JSON and results are modelled
  by the inductive `JsVal`.  JS numbers are modelled exactly, as signed
  decimal fixed-point values `m / 10 ^ e` (every finite IEEE double is such a
  value) together with the two infinities; double rounding of extremely
  large/small literals is not modelled.  `NaN` is not a modelled value: the
  places where the source produces `NaN` (`parseFloat` / `parseInt` failure)
  are modelled by `Option.none`.
* JS strings are Lean `String`s; the string primitives the source relies on
  (`trim`, `split`, `toLowerCase`, `startsWith`, `slice`, `repeat`,
  `String(x)` coercion) are re-implemented below over `List Char` so that
  they compute by `rfl`/`decide`.
* Property access (`key in data`, `data[key]`) models the own properties of
  JSON-derived plain objects and arrays (array index keys and `length`);
  prototype-inherited properties are outside the model.
* Non-structural recursions (the JSON parser, the fence stripper, the schema
  validator) take an explicit fuel argument (structural recursion on the
  fuel) so that every definition reduces inside the kernel; the public
  wrappers pick a fuel that is always sufficient (input length, or the
  schema measure `jsSize`), and fuel-irrelevance is proved where theorems
  need it.
* The HTTP transport is an external collaborator: it is modelled as an
  oracle `Nat → FetchOutcome` giving, per attempt, either a non-ok response
  (with the message the source would extract) or the returned text content.
  Engine-specific JSON `SyntaxError` message text is collapsed to a fixed
  string.
-/

namespace JsonGen

/-! ## Characters and digit strings -/

/-- The backtick character (written by code point to keep the sources clean). -/
def backtick : Char := Char.ofNat 96

/-- JS whitespace (the WhiteSpace / LineTerminator productions used by
`String.prototype.trim`, `parseInt` and `parseFloat`); the common code points. -/
def isJsWs (c : Char) : Bool :=
  c = ' ' || c = '\t' || c = '\n' || c = '\r' || c = '\x0b' || c = '\x0c' || c = ' '

/-- ASCII lower-casing of one character (the fragment of `toLowerCase` the
library exercises: type tags and boolean literals are ASCII). -/
def lowerChar (c : Char) : Char :=
  if 'A' ≤ c ∧ c ≤ 'Z' then Char.ofNat (c.toNat + 32) else c

/-- The character for a decimal digit value. -/
def digitChar (n : Nat) : Char := Char.ofNat (48 + n)

/-- The numeric value of a decimal digit character. -/
def digitVal (c : Char) : Nat := c.toNat - 48

/-- The numeric value of a hexadecimal digit character. -/
def hexVal (c : Char) : Nat :=
  if '0' ≤ c ∧ c ≤ '9' then c.toNat - 48
  else if 'a' ≤ c ∧ c ≤ 'f' then c.toNat - 87
  else c.toNat - 55

def isHexDigit (c : Char) : Bool :=
  c.isDigit || ('a' ≤ c && c ≤ 'f') || ('A' ≤ c && c ≤ 'F')

/-- Decimal digits of `n`, most significant first (fuel-driven so it reduces). -/
def natToDigitsF : Nat → Nat → List Char
  | 0, _ => []
  | f + 1, n => if n < 10 then [digitChar n] else natToDigitsF f (n / 10) ++ [digitChar (n % 10)]

def natToDigits (n : Nat) : List Char := natToDigitsF (n + 1) n

/-- Value of a list of decimal digit characters. -/
def digitsToNat (ds : List Char) : Nat := ds.foldl (fun a c => a * 10 + digitVal c) 0

/-- Value of a list of hexadecimal digit characters. -/
def hexDigitsToNat (ds : List Char) : Nat := ds.foldl (fun a c => a * 16 + hexVal c) 0

/-! ### Digit lemmas -/

theorem digitVal_digitChar {d : Nat} (h : d < 10) : digitVal (digitChar d) = d := by
  interval_cases d <;> rfl

theorem isDigit_digitChar {d : Nat} (h : d < 10) : (digitChar d).isDigit = true := by
  interval_cases d <;> rfl

theorem digitsToNat_append (xs ys : List Char) :
    digitsToNat (xs ++ ys) = digitsToNat ys +
      digitsToNat xs * 10 ^ ys.length := by
  induction ys using List.reverseRecOn generalizing xs with
  | nil => simp [digitsToNat]
  | append_singleton ys c ih =>
      have h1 : xs ++ (ys ++ [c]) = (xs ++ ys) ++ [c] := by simp
      rw [h1]
      show digitsToNat ((xs ++ ys) ++ [c]) = _
      have h2 : ∀ zs : List Char, digitsToNat (zs ++ [c]) = digitsToNat zs * 10 + digitVal c := by
        intro zs; simp [digitsToNat, List.foldl_append]
      rw [h2, h2, ih]
      ring_nf
      simp [pow_succ]
      ring

theorem digitsToNat_natToDigitsF {f n : Nat} (h : n < f) :
    digitsToNat (natToDigitsF f n) = n := by
  induction f generalizing n with
  | zero => omega
  | succ f ih =>
      by_cases hn : n < 10
      · simp only [natToDigitsF, if_pos hn]
        simp [digitsToNat, digitVal_digitChar hn]
      · simp only [natToDigitsF, if_neg hn]
        have hdiv : n / 10 < f := by
          have h10 : n / 10 < n := Nat.div_lt_self (by omega) (by omega)
          omega
        rw [digitsToNat_append, ih hdiv]
        simp [digitsToNat, digitVal_digitChar (Nat.mod_lt n (by omega : 0 < 10))]
        omega

theorem digitsToNat_natToDigits (n : Nat) : digitsToNat (natToDigits n) = n :=
  digitsToNat_natToDigitsF (Nat.lt_succ_self n)

theorem natToDigitsF_all_digit {f n : Nat} :
    ∀ c ∈ natToDigitsF f n, c.isDigit = true := by
  induction f generalizing n with
  | zero => intro c hc; simp [natToDigitsF] at hc
  | succ f ih =>
      intro c hc
      by_cases hn : n < 10
      · simp only [natToDigitsF, if_pos hn, List.mem_singleton] at hc
        subst hc; exact isDigit_digitChar hn
      · simp only [natToDigitsF, if_neg hn, List.mem_append, List.mem_singleton] at hc
        rcases hc with hc | hc
        · exact ih _ hc
        · subst hc; exact isDigit_digitChar (Nat.mod_lt n (by omega : 0 < 10))

theorem natToDigits_all_digit {n : Nat} : ∀ c ∈ natToDigits n, c.isDigit = true :=
  natToDigitsF_all_digit

theorem natToDigits_ne_nil (n : Nat) : natToDigits n ≠ [] := by
  unfold natToDigits natToDigitsF
  by_cases hn : n < 10 <;> simp [hn]

theorem digitsToNat_replicate_zero_append (k : Nat) (ds : List Char) :
    digitsToNat (List.replicate k '0' ++ ds) = digitsToNat ds := by
  induction k with
  | zero => simp
  | succ k ih =>
      simp only [List.replicate_succ, List.cons_append]
      show digitsToNat (List.replicate k '0' ++ ds) = _
      exact ih

theorem isDigit_not_ws {c : Char} (h : c.isDigit = true) : isJsWs c = false := by
  simp [Char.isDigit] at h
  simp only [isJsWs]
  have h1 : c.toNat = c.val.toNat := rfl
  simp only [Bool.or_eq_false_iff, decide_eq_false_iff_not]
  refine ⟨⟨⟨⟨⟨⟨?_, ?_⟩, ?_⟩, ?_⟩, ?_⟩, ?_⟩, ?_⟩ <;>
    (intro hc; subst hc; revert h; decide)

theorem isDigit_false_facts {c : Char} (h : c.isDigit = true) :
    c ≠ '-' ∧ c ≠ '+' ∧ c ≠ 'I' ∧ c ≠ '.' := by
  simp [Char.isDigit] at h
  refine ⟨?_, ?_, ?_, ?_⟩ <;> (intro hc; subst hc; revert h; decide)

end JsonGen

namespace JsonGen

/-! ## JS string primitives over `List Char` -/

/-- Drop a predicate-satisfying suffix. -/
def dropWhileEnd (p : Char → Bool) (cs : List Char) : List Char :=
  (cs.reverse.dropWhile p).reverse

/-- `String.prototype.trim`: strip leading and trailing whitespace. -/
def trimChars (cs : List Char) : List Char :=
  dropWhileEnd isJsWs (cs.dropWhile isJsWs)

/-- Optional leading sign, as consumed by `parseInt` / `parseFloat`.
Returns (is-negative, remainder). -/
def readSign : List Char → Bool × List Char
  | [] => (false, [])
  | c :: rest =>
    if c = '-' then (true, rest)
    else if c = '+' then (false, rest)
    else (false, c :: rest)

/-! ## JS numbers

A JS number is modelled exactly: `fin m e` denotes `m / 10 ^ e`, and `inf`
the two infinities.  `NaN` is represented by `Option.none` at the points
where the source tests `isNaN`. -/

inductive JsNum where
  | fin (m : Int) (e : Nat)
  | inf (pos : Bool)
  deriving DecidableEq

/-- Strip factors of ten shared between mantissa and exponent. -/
def normFin (m : Int) : Nat → JsNum
  | 0 => .fin m 0
  | e + 1 => if m % 10 = 0 then normFin (m / 10) e else .fin m (e + 1)

/-- Canonical-form predicate for the decimal representation. -/
def IsNormNum : JsNum → Prop
  | .fin m e => e = 0 ∨ m % 10 ≠ 0
  | .inf _ => True

/-- Digits of an integer, with sign. -/
def intToChars (m : Int) : List Char :=
  if m < 0 then '-' :: natToDigits m.natAbs else natToDigits m.natAbs

/-- Left-pad a digit string with zeros to length at least `k`. -/
def padZeros (k : Nat) (ds : List Char) : List Char :=
  List.replicate (k - ds.length) '0' ++ ds

/-- Exponential rendering `d.ddd e±x` of `m / 10 ^ e` (the branch JS
`String()` takes for magnitudes at or above `1e21` and below `1e-6`): the
mantissa is the digit string of `|m|` with trailing zeros removed, the
exponent is `digits(|m|) - e - 1`, written with an explicit `+` sign when
non-negative (`String(1e21) = "1e+21"`, `String(5e-8) = "5e-8"`). -/
def expMant (m : Int) : List Char :=
  dropWhileEnd (fun c => c = '0') (natToDigits m.natAbs)

def expExp (m : Int) (e : Nat) : Int :=
  ((natToDigits m.natAbs).length : Int) - (e : Int) - 1

def expSuffix (x : Int) : List Char :=
  if 0 ≤ x then '+' :: natToDigits x.toNat else '-' :: natToDigits (-x).toNat

def expRender (m : Int) (e : Nat) : List Char :=
  (if m < 0 then ['-'] else []) ++
  (match expMant m with
   | [] => ['0']
   | d :: rest => d :: (if rest = [] then [] else '.' :: rest)) ++
  'e' :: expSuffix (expExp m e)

/-- JS `String()` rendering of `m / 10 ^ e`, following `Number::toString`:
with `n = digits(|m|) - e` (the position of the decimal point), fixed-point
notation when `-6 < n ≤ 21`, exponential notation otherwise. -/
def finToChars (m : Int) (e : Nat) : List Char :=
  if -5 ≤ ((natToDigits m.natAbs).length : Int) - (e : Int) ∧
      ((natToDigits m.natAbs).length : Int) - (e : Int) ≤ 21 then
    if e = 0 then intToChars m
    else
      let ds := padZeros (e + 1) (natToDigits m.natAbs)
      let ip := ds.take (ds.length - e)
      let fp := ds.drop (ds.length - e)
      (if m < 0 then ['-'] else []) ++ ip ++ '.' :: fp
  else expRender m e

def jsNumToChars : JsNum → List Char
  | .fin m e => finToChars m e
  | .inf pos => if pos then "Infinity".data else "-Infinity".data

def jsNumToString (n : JsNum) : String := String.mk (jsNumToChars n)

/-- Value of the exponent marker tail (`parseFloat`); an exponent with no
digits contributes nothing. -/
def parseExpTail (t : List Char) : Int :=
  let sn := readSign t
  let ds := sn.2.takeWhile Char.isDigit
  if ds = [] then 0
  else if sn.1 then -(digitsToNat ds : Int) else (digitsToNat ds : Int)

/-- Combine an integer mantissa with a base-ten exponent. -/
def mkNumFromSci (m : Int) (p : Int) : JsNum :=
  if 0 ≤ p then .fin (m * 10 ^ p.toNat) 0 else normFin m (-p).toNat

/-- Fractional part after the integer digits: a leading `'.'` introduces
further digits.  Returns (fraction digits, remainder). -/
def fracPart : List Char → List Char × List Char
  | '.' :: t => (t.takeWhile Char.isDigit, t.dropWhile Char.isDigit)
  | r => ([], r)

/-- Exponent-marker contribution at the given position. -/
def expPart : List Char → Int
  | 'e' :: t => parseExpTail t
  | 'E' :: t => parseExpTail t
  | _ => 0

/-- The signed mantissa read from integer and fraction digit runs. -/
def signedMantissa (neg : Bool) (d1 d2 : List Char) : Int :=
  if neg then -(digitsToNat (d1 ++ d2) : Int) else (digitsToNat (d1 ++ d2) : Int)

/-- `parseFloat` after whitespace/sign handling. -/
def floatBody (neg : Bool) (cs : List Char) : Option JsNum :=
  if "Infinity".data.isPrefixOf cs then some (.inf (!neg))
  else if cs.takeWhile Char.isDigit = [] ∧ (fracPart (cs.dropWhile Char.isDigit)).1 = [] then
    none
  else
    some (mkNumFromSci
      (signedMantissa neg (cs.takeWhile Char.isDigit) (fracPart (cs.dropWhile Char.isDigit)).1)
      (expPart (fracPart (cs.dropWhile Char.isDigit)).2 -
        ((fracPart (cs.dropWhile Char.isDigit)).1.length : Int)))

/-- Model of JS `parseFloat`: skip leading whitespace, optional sign,
`Infinity`, else the longest decimal-literal prefix; `none` models `NaN`. -/
def jsParseFloatChars (cs0 : List Char) : Option JsNum :=
  floatBody (readSign (cs0.dropWhile isJsWs)).1 (readSign (cs0.dropWhile isJsWs)).2

def jsParseFloat (s : String) : Option JsNum := jsParseFloatChars s.data

/-- `parseInt` radix detection: a `0x` / `0X` prefix selects base 16. -/
def intHexMode : List Char → Bool
  | c0 :: x :: _ => c0 = '0' && (x = 'x' || x = 'X')
  | _ => false

/-- `parseInt` after whitespace/sign handling. -/
def intBody (neg : Bool) (cs : List Char) : Option Int :=
  if intHexMode cs then
    if (cs.drop 2).takeWhile isHexDigit = [] then none
    else some (if neg then -(hexDigitsToNat ((cs.drop 2).takeWhile isHexDigit) : Int)
               else (hexDigitsToNat ((cs.drop 2).takeWhile isHexDigit) : Int))
  else
    if cs.takeWhile Char.isDigit = [] then none
    else some (if neg then -(digitsToNat (cs.takeWhile Char.isDigit) : Int)
               else (digitsToNat (cs.takeWhile Char.isDigit) : Int))

/-- Model of JS `parseInt` with no radix argument: skip whitespace, optional
sign, `0x`/`0X` selects base 16, else base 10; the longest digit prefix;
`none` models `NaN`. -/
def jsParseIntChars (cs0 : List Char) : Option Int :=
  intBody (readSign (cs0.dropWhile isJsWs)).1 (readSign (cs0.dropWhile isJsWs)).2

def jsParseInt (s : String) : Option Int := jsParseIntChars s.data

end JsonGen

namespace JsonGen

/-! ### takeWhile / dropWhile helpers -/

theorem takeWhile_append_all {p : Char → Bool} {xs : List Char}
    (h : ∀ x ∈ xs, p x = true) (ys : List Char) :
    (xs ++ ys).takeWhile p = xs ++ ys.takeWhile p := by
  induction xs with
  | nil => simp
  | cons c t ih =>
      have hc : p c = true := h c (by simp)
      simp only [List.cons_append, List.takeWhile_cons, hc, if_true]
      rw [ih (fun x hx => h x (by simp [hx]))]

theorem dropWhile_append_all {p : Char → Bool} {xs : List Char}
    (h : ∀ x ∈ xs, p x = true) (ys : List Char) :
    (xs ++ ys).dropWhile p = ys.dropWhile p := by
  induction xs with
  | nil => simp
  | cons c t ih =>
      have hc : p c = true := h c (by simp)
      simp only [List.cons_append, List.dropWhile_cons, hc, if_true]
      exact ih (fun x hx => h x (by simp [hx]))

theorem takeWhile_all {p : Char → Bool} {xs : List Char}
    (h : ∀ x ∈ xs, p x = true) : xs.takeWhile p = xs := by
  have := takeWhile_append_all h []
  simpa using this

theorem dropWhile_all {p : Char → Bool} {xs : List Char}
    (h : ∀ x ∈ xs, p x = true) : xs.dropWhile p = [] := by
  have := dropWhile_append_all h []
  simpa using this

theorem takeWhile_cons_neg {p : Char → Bool} {c : Char} (t : List Char)
    (h : p c = false) : (c :: t).takeWhile p = [] := by
  simp [List.takeWhile_cons, h]

theorem dropWhile_cons_neg {p : Char → Bool} {c : Char} (t : List Char)
    (h : p c = false) : (c :: t).dropWhile p = c :: t := by
  simp [List.dropWhile_cons, h]

theorem readSign_other {c : Char} (t : List Char) (h1 : c ≠ '-') (h2 : c ≠ '+') :
    readSign (c :: t) = (false, c :: t) := by
  simp [readSign, h1, h2]

theorem infPrefix_false {c : Char} (t : List Char) (h : c ≠ 'I') :
    "Infinity".data.isPrefixOf (c :: t) = false := by
  show (('I' == c) && List.isPrefixOf "nfinity".data t) = false
  have hb : ('I' == c) = false := by
    simp only [beq_eq_false_iff_ne, ne_eq]
    exact fun hc => h hc.symm
  simp [hb]

/-- Characters a decimal digit can never be. -/
theorem isDigit_ne {c : Char} (h : c.isDigit = true) :
    c ≠ '-' ∧ c ≠ '+' ∧ c ≠ 'I' ∧ c ≠ '.' ∧ c ≠ 'x' ∧ c ≠ 'X' ∧ c ≠ 'e' ∧ c ≠ 'E' := by
  simp [Char.isDigit] at h
  refine ⟨?_, ?_, ?_, ?_, ?_, ?_, ?_, ?_⟩ <;> (intro hc; subst hc; revert h; decide)

/-! ### Normal forms and roundtrips -/

theorem normFin_norm (m : Int) (e : Nat) : IsNormNum (normFin m e) := by
  induction e generalizing m with
  | zero => exact Or.inl rfl
  | succ e ih =>
      show IsNormNum (if m % 10 = 0 then normFin (m / 10) e else .fin m (e + 1))
      by_cases h : m % 10 = 0
      · rw [if_pos h]; exact ih (m / 10)
      · rw [if_neg h]; exact Or.inr h

theorem normFin_of_not_dvd {m : Int} {e : Nat} (h : m % 10 ≠ 0) :
    normFin m e = .fin m e := by
  cases e with
  | zero => rfl
  | succ e => show (if m % 10 = 0 then _ else _) = _; rw [if_neg h]

theorem mkNumFromSci_norm (m p : Int) : IsNormNum (mkNumFromSci m p) := by
  unfold mkNumFromSci
  split
  · exact Or.inl rfl
  · exact normFin_norm _ _

theorem jsParseFloatChars_norm {cs : List Char} {n : JsNum}
    (h : jsParseFloatChars cs = some n) : IsNormNum n := by
  unfold jsParseFloatChars floatBody at h
  split at h
  · cases h; trivial
  · split at h
    · cases h
    · cases h; exact mkNumFromSci_norm _ _

theorem signedMantissa_eq (neg : Bool) (d1 d2 : List Char)
    (h : digitsToNat (d1 ++ d2) = m.natAbs) (hsign : neg = true ↔ m < 0) :
    signedMantissa neg d1 d2 = m := by
  unfold signedMantissa
  rw [h]
  cases neg with
  | true =>
      have hm : m < 0 := hsign.mp rfl
      simp only [if_pos]
      omega
  | false =>
      have hm : ¬ m < 0 := fun hl => by simpa using hsign.mpr hl
      simp only [Bool.false_eq_true, if_false]
      omega

/-- Parsing a pure digit string (as produced by the renderer). -/
theorem floatBody_digits {ds : List Char} (neg : Bool) (hne : ds ≠ [])
    (hdig : ∀ c ∈ ds, c.isDigit = true) :
    floatBody neg ds =
      some (mkNumFromSci (signedMantissa neg ds []) 0) := by
  obtain ⟨c, t, rfl⟩ : ∃ c t, ds = c :: t := by
    cases ds with
    | nil => exact absurd rfl hne
    | cons c t => exact ⟨c, t, rfl⟩
  have hc : c.isDigit = true := hdig c (by simp)
  obtain ⟨_, _, hI, _, _, _, _, _⟩ := isDigit_ne hc
  unfold floatBody
  rw [infPrefix_false t hI]
  rw [takeWhile_all hdig, dropWhile_all hdig]
  have hfr : fracPart [] = (([] : List Char), ([] : List Char)) := rfl
  rw [hfr]
  simp only [Bool.false_eq_true, if_false, hne, false_and, if_false, ne_eq,
    not_false_eq_true, List.length_nil]
  have : expPart [] = 0 := rfl
  rw [this]
  norm_num

end JsonGen

namespace JsonGen

theorem intBody_digits {ds : List Char} (neg : Bool) (hne : ds ≠ [])
    (hdig : ∀ c ∈ ds, c.isDigit = true)
    (hnohex : intHexMode ds = false) :
    intBody neg ds =
      some (if neg then -(digitsToNat ds : Int) else (digitsToNat ds : Int)) := by
  unfold intBody
  rw [hnohex]
  rw [takeWhile_all hdig]
  simp [hne]
theorem intHexMode_digits {ds : List Char} (hdig : ∀ c ∈ ds, c.isDigit = true) :
    intHexMode ds = false := by
  cases ds with
  | nil => rfl
  | cons c0 t =>
      cases t with
      | nil => rfl
      | cons x t' =>
          have hx : x.isDigit = true := hdig x (by simp)
          obtain ⟨_, _, _, _, hx1, hx2, _, _⟩ := isDigit_ne hx
          show (c0 = '0' && (x = 'x' || x = 'X') : Bool) = false
          simp [hx1, hx2]

theorem jsParseIntChars_int (m : Int) :
    jsParseIntChars (intToChars m) = some m := by
  have hdig := @natToDigits_all_digit m.natAbs
  have hne := natToDigits_ne_nil m.natAbs
  obtain ⟨c, t, hct⟩ : ∃ c t, natToDigits m.natAbs = c :: t := by
    cases hd : natToDigits m.natAbs with
    | nil => exact absurd hd hne
    | cons c t => exact ⟨c, t, rfl⟩
  have hc : c.isDigit = true := hdig c (by rw [hct]; simp)
  obtain ⟨hm, hp, _, _, _, _, _, _⟩ := isDigit_ne hc
  have hnohex := intHexMode_digits hdig
  by_cases hneg : m < 0
  · unfold jsParseIntChars intToChars
    rw [if_pos hneg]
    have hws : isJsWs '-' = false := by decide
    rw [dropWhile_cons_neg _ hws]
    have hrs : readSign ('-' :: natToDigits m.natAbs) = (true, natToDigits m.natAbs) := by
      simp [readSign]
    rw [hrs]
    rw [intBody_digits true hne hdig hnohex]
    rw [digitsToNat_natToDigits]
    simp only [if_pos, Option.some.injEq]
    omega
  · unfold jsParseIntChars intToChars
    rw [if_neg hneg]
    rw [hct, dropWhile_cons_neg t (isDigit_not_ws hc), readSign_other t hm hp, ← hct]
    rw [intBody_digits false hne hdig hnohex]
    rw [digitsToNat_natToDigits]
    simp only [Bool.false_eq_true, if_false, Option.some.injEq]
    omega

theorem padZeros_all_digit {k : Nat} {ds : List Char}
    (h : ∀ c ∈ ds, c.isDigit = true) : ∀ c ∈ padZeros k ds, c.isDigit = true := by
  intro c hc
  unfold padZeros at hc
  rcases List.mem_append.mp hc with hc | hc
  · have : c = '0' := List.eq_of_mem_replicate hc
    subst this; decide
  · exact h c hc

theorem padZeros_length {k : Nat} {ds : List Char} : (padZeros k ds).length = max k ds.length := by
  unfold padZeros
  simp [List.length_append, List.length_replicate]
  omega

theorem digitsToNat_padZeros (k : Nat) (ds : List Char) :
    digitsToNat (padZeros k ds) = digitsToNat ds :=
  digitsToNat_replicate_zero_append _ _

/-- Roundtrip: parsing the rendering of a canonical finite number. -/

theorem digitsToNat_replicate_zero (t : Nat) : digitsToNat (List.replicate t '0') = 0 := by
  have h := digitsToNat_replicate_zero_append t []
  simpa using h

theorem parseExpTail_pos (u : Nat) : parseExpTail ('+' :: natToDigits u) = (u : Int) := by
  have hrs : readSign ('+' :: natToDigits u) = (false, natToDigits u) := by
    simp [readSign]
  simp only [parseExpTail, hrs, takeWhile_all (@natToDigits_all_digit u)]
  rw [if_neg (natToDigits_ne_nil u), if_neg (by simp), digitsToNat_natToDigits]

theorem parseExpTail_neg (u : Nat) : parseExpTail ('-' :: natToDigits u) = -(u : Int) := by
  have hrs : readSign ('-' :: natToDigits u) = (true, natToDigits u) := by
    simp [readSign]
  simp only [parseExpTail, hrs, takeWhile_all (@natToDigits_all_digit u)]
  rw [if_neg (natToDigits_ne_nil u), if_pos trivial, digitsToNat_natToDigits]

theorem parseExpTail_expSuffix (x : Int) : parseExpTail (expSuffix x) = x := by
  unfold expSuffix
  by_cases hx : 0 ≤ x
  · rw [if_pos hx, parseExpTail_pos]
    omega
  · rw [if_neg hx, parseExpTail_neg]
    omega

theorem dropWhileEnd_zero_decomp (l : List Char) :
    ∃ t, l = dropWhileEnd (fun c => c = '0') l ++ List.replicate t '0' := by
  refine ⟨(l.reverse.takeWhile (fun c => decide (c = '0'))).reverse.length, ?_⟩
  have hall : ∀ b ∈ (l.reverse.takeWhile (fun c => decide (c = '0'))).reverse, b = '0' := by
    intro b hb
    have hb2 := List.mem_reverse.mp hb
    exact of_decide_eq_true (List.mem_takeWhile_imp (p := fun c => decide (c = '0')) hb2)
  have hrep := List.eq_replicate_of_mem hall
  show l = (l.reverse.dropWhile (fun c => decide (c = '0'))).reverse ++ _
  rw [← hrep, ← List.reverse_append, List.takeWhile_append_dropWhile, List.reverse_reverse]

theorem natToDigitsF_length_le : ∀ (f a k : Nat), a < f → a < 10 ^ k → 1 ≤ k →
    (natToDigitsF f a).length ≤ k := by
  intro f
  induction f with
  | zero => intro a k h; omega
  | succ f ih =>
      intro a k hf hk hk1
      by_cases ha : a < 10
      · simp only [natToDigitsF, if_pos ha, List.length_singleton]
        omega
      · simp only [natToDigitsF, if_neg ha, List.length_append, List.length_singleton]
        have h1 : a / 10 < f := by
          have h2 := Nat.div_lt_self (show 0 < a by omega) (show 1 < 10 by omega)
          omega
        have hk2 : 2 ≤ k := by
          by_contra hlt
          have hk3 : k = 1 := by omega
          subst hk3
          simp [pow_one] at hk
          omega
        have h2 : a / 10 < 10 ^ (k - 1) := by
          have h3 : 10 ^ k = 10 ^ (k - 1) * 10 := by
            rw [← pow_succ]
            congr 1
            omega
          rw [Nat.div_lt_iff_lt_mul (by omega : 0 < 10)]
          omega
        have h3 := ih (a / 10) (k - 1) h1 h2 (by omega)
        omega

theorem natToDigits_length_le {a k : Nat} (h : a < 10 ^ k) (hk : 1 ≤ k) :
    (natToDigits a).length ≤ k :=
  natToDigitsF_length_le (a + 1) a k (Nat.lt_succ_self a) h hk

/-- Roundtrip of the exponential rendering through `parseFloat`. -/
theorem jsParseFloatChars_expRender {m : Int} {e : Nat} (hm : m ≠ 0)
    (hnorm : e = 0 ∨ m % 10 ≠ 0) :
    jsParseFloatChars (expRender m e) = some (.fin m e) := by
  obtain ⟨t, hDs⟩ := dropWhileEnd_zero_decomp (natToDigits m.natAbs)
  have hDs2 : natToDigits m.natAbs = expMant m ++ List.replicate t '0' := hDs
  have hSdig : ∀ c ∈ expMant m, c.isDigit = true := by
    intro c hc
    exact @natToDigits_all_digit m.natAbs c (by rw [hDs2]; exact List.mem_append.mpr (Or.inl hc))
  have hSval : digitsToNat (expMant m) * 10 ^ t = m.natAbs := by
    have h1 := digitsToNat_natToDigits m.natAbs
    rw [hDs2, digitsToNat_append, digitsToNat_replicate_zero, List.length_replicate] at h1
    omega
  have hSne : expMant m ≠ [] := by
    intro hnil
    rw [hnil] at hSval
    have h0 : m.natAbs = 0 := by simpa [digitsToNat] using hSval.symm
    exact hm (by omega)
  obtain ⟨d, rest, hSdr⟩ : ∃ d rest, expMant m = d :: rest := by
    cases hS2 : expMant m with
    | nil => exact absurd hS2 hSne
    | cons d rest => exact ⟨d, rest, rfl⟩
  have hd : d.isDigit = true := hSdig d (by rw [hSdr]; simp)
  obtain ⟨hdm, hdp, hdI, _, _, _, _, _⟩ := isDigit_ne hd
  have hrestdig : ∀ c ∈ rest, c.isDigit = true := by
    intro c hc
    exact hSdig c (by rw [hSdr]; simp [hc])
  have hrender : expRender m e =
      (if m < 0 then ['-'] else []) ++
        (d :: (if rest = [] then [] else '.' :: rest)) ++ 'e' :: expSuffix (expExp m e) := by
    unfold expRender
    simp only [hSdr]
  have hbody : ∀ ng : Bool,
      floatBody ng
        ((d :: (if rest = [] then [] else '.' :: rest)) ++ 'e' :: expSuffix (expExp m e)) =
        some (mkNumFromSci (signedMantissa ng [d] rest)
          (expExp m e - (rest.length : Int))) := by
    intro ng
    cases rest with
    | nil =>
        show floatBody ng (d :: 'e' :: expSuffix (expExp m e)) = _
        unfold floatBody
        rw [infPrefix_false _ hdI, if_neg (by simp)]
        have h1 : (d :: 'e' :: expSuffix (expExp m e)).takeWhile Char.isDigit = [d] := by
          rw [List.takeWhile_cons, hd, if_pos rfl,
            takeWhile_cons_neg _ (show ('e').isDigit = false by decide)]
        have h2 : (d :: 'e' :: expSuffix (expExp m e)).dropWhile Char.isDigit =
            'e' :: expSuffix (expExp m e) := by
          rw [List.dropWhile_cons, hd, if_pos rfl,
            dropWhile_cons_neg _ (show ('e').isDigit = false by decide)]
        rw [h1, h2]
        have h3 : fracPart ('e' :: expSuffix (expExp m e)) =
            ([], 'e' :: expSuffix (expExp m e)) := rfl
        rw [h3]
        rw [if_neg (by simp)]
        have h4 : expPart ('e' :: expSuffix (expExp m e)) =
            parseExpTail (expSuffix (expExp m e)) := rfl
        rw [h4, parseExpTail_expSuffix]
    | cons r0 rs =>
        show floatBody ng (d :: '.' :: ((r0 :: rs) ++ 'e' :: expSuffix (expExp m e))) = _
        unfold floatBody
        rw [infPrefix_false _ hdI, if_neg (by simp)]
        have h1 : (d :: '.' :: ((r0 :: rs) ++ 'e' :: expSuffix (expExp m e))).takeWhile
            Char.isDigit = [d] := by
          rw [List.takeWhile_cons, hd, if_pos rfl,
            takeWhile_cons_neg _ (show ('.').isDigit = false by decide)]
        have h2 : (d :: '.' :: ((r0 :: rs) ++ 'e' :: expSuffix (expExp m e))).dropWhile
            Char.isDigit = '.' :: ((r0 :: rs) ++ 'e' :: expSuffix (expExp m e)) := by
          rw [List.dropWhile_cons, hd, if_pos rfl,
            dropWhile_cons_neg _ (show ('.').isDigit = false by decide)]
        rw [h1, h2]
        have h3 : fracPart ('.' :: ((r0 :: rs) ++ 'e' :: expSuffix (expExp m e))) =
            (((r0 :: rs) ++ 'e' :: expSuffix (expExp m e)).takeWhile Char.isDigit,
             ((r0 :: rs) ++ 'e' :: expSuffix (expExp m e)).dropWhile Char.isDigit) := rfl
        rw [h3]
        rw [takeWhile_append_all hrestdig, dropWhile_append_all hrestdig]
        rw [takeWhile_cons_neg _ (show ('e').isDigit = false by decide),
            dropWhile_cons_neg _ (show ('e').isDigit = false by decide)]
        rw [List.append_nil]
        rw [if_neg (by simp)]
        have h4 : expPart ('e' :: expSuffix (expExp m e)) =
            parseExpTail (expSuffix (expExp m e)) := rfl
        rw [h4, parseExpTail_expSuffix]
  have hmk : ∀ ng : Bool, ng = decide (m < 0) →
      mkNumFromSci (signedMantissa ng [d] rest) (expExp m e - (rest.length : Int)) =
        .fin m e := by
    intro ng hng
    have hq : signedMantissa ng [d] rest =
        (if m < 0 then -(digitsToNat (expMant m) : Int)
         else (digitsToNat (expMant m) : Int)) := by
      unfold signedMantissa
      rw [show ([d] ++ rest : List Char) = expMant m from by rw [hSdr]; simp]
      rw [hng]
      by_cases hneg : m < 0
      · simp [hneg]
      · simp [hneg]
    have hlen : ((natToDigits m.natAbs).length : Int) = ((expMant m).length : Int) + t := by
      rw [hDs2]
      push_cast [List.length_append, List.length_replicate]
      ring
    have hexpv : expExp m e - (rest.length : Int) = (t : Int) - (e : Int) := by
      unfold expExp
      rw [hlen, hSdr]
      push_cast [List.length_cons]
      ring
    rw [hq, hexpv]
    have hP : (digitsToNat (expMant m) : Int) * (10 : Int) ^ t = (m.natAbs : Int) := by
      exact_mod_cast hSval
    rcases hnorm with he0 | hmod
    · subst he0
      have ht' : (t : Int) - ((0 : Nat) : Int) = (t : Int) := by push_cast; ring
      rw [ht']
      unfold mkNumFromSci
      rw [if_pos (by omega : (0 : Int) ≤ (t : Int))]
      have htn : ((t : Int)).toNat = t := by omega
      rw [htn]
      congr 1
      by_cases hneg : m < 0
      · rw [if_pos hneg, neg_mul, hP]
        omega
      · rw [if_neg hneg, hP]
        omega
    · have ht0 : t = 0 := by
        by_contra hne0
        apply hmod
        have hdvd : (10 : Nat) ∣ m.natAbs := by
          rw [← hSval]
          have ht1 : t = (t - 1) + 1 := by omega
          rw [ht1, pow_succ, ← mul_assoc]
          exact dvd_mul_left 10 _
        omega
      subst ht0
      have hq2 : (if m < 0 then -(digitsToNat (expMant m) : Int)
          else (digitsToNat (expMant m) : Int)) = m := by
        simp only [pow_zero, mul_one] at hP
        by_cases hneg : m < 0
        · rw [if_pos hneg, hP]
          omega
        · rw [if_neg hneg, hP]
          omega
      rw [hq2]
      have hexp3 : ((0 : Nat) : Int) - (e : Int) = -(e : Int) := by push_cast; ring
      rw [hexp3]
      by_cases he : e = 0
      · subst he
        unfold mkNumFromSci
        rw [if_pos (by omega)]
        norm_num
      · unfold mkNumFromSci
        rw [if_neg (by omega)]
        have harg : (-(-(e : Int))).toNat = e := by omega
        rw [harg, normFin_of_not_dvd hmod]
  rw [hrender]
  unfold jsParseFloatChars
  by_cases hneg : m < 0
  · rw [if_pos hneg]
    rw [List.singleton_append, List.cons_append]
    have hws : isJsWs '-' = false := by decide
    rw [dropWhile_cons_neg _ hws]
    have hrs : readSign ('-' :: ((d :: (if rest = [] then [] else '.' :: rest)) ++
        'e' :: expSuffix (expExp m e))) =
        (true, (d :: (if rest = [] then [] else '.' :: rest)) ++
          'e' :: expSuffix (expExp m e)) := by
      simp [readSign]
    rw [hrs]
    rw [hbody true]
    rw [hmk true (by simp [hneg])]
  · rw [if_neg hneg]
    rw [List.nil_append]
    rw [List.cons_append]
    rw [dropWhile_cons_neg _ (isDigit_not_ws hd), readSign_other _ hdm hdp]
    rw [← List.cons_append]
    rw [hbody false]
    rw [hmk false (by simp [hneg])]

theorem jsParseFloatChars_finToChars {m : Int} {e : Nat}
    (hnorm : e = 0 ∨ m % 10 ≠ 0) :
    jsParseFloatChars (finToChars m e) = some (.fin m e) := by
  cases e with
  | zero =>
      by_cases hfix : ((natToDigits m.natAbs).length : Int) ≤ 21
      ·
        have hdig := @natToDigits_all_digit m.natAbs
        have hne := natToDigits_ne_nil m.natAbs
        obtain ⟨c, t, hct⟩ : ∃ c t, natToDigits m.natAbs = c :: t := by
          cases hd : natToDigits m.natAbs with
          | nil => exact absurd hd hne
          | cons c t => exact ⟨c, t, rfl⟩
        have hc : c.isDigit = true := hdig c (by rw [hct]; simp)
        obtain ⟨hm, hp, _, _, _, _, _, _⟩ := isDigit_ne hc
        have hmk : mkNumFromSci (signedMantissa (decide (m < 0)) (natToDigits m.natAbs) []) 0
            = .fin m 0 := by
          have hsm : signedMantissa (decide (m < 0)) (natToDigits m.natAbs) [] = m := by
            refine signedMantissa_eq _ _ _ ?_ ?_
            · rw [List.append_nil, digitsToNat_natToDigits]
            · simp
          rw [hsm]
          unfold mkNumFromSci
          norm_num
        have hrender : finToChars m 0 = intToChars m := by
          unfold finToChars
          rw [if_pos ⟨by push_cast; omega, by push_cast; omega⟩, if_pos rfl]
        unfold jsParseFloatChars
        rw [hrender]
        unfold intToChars
        by_cases hneg : m < 0
        · rw [if_pos hneg]
          have hws : isJsWs '-' = false := by decide
          rw [dropWhile_cons_neg _ hws]
          have hrs : readSign ('-' :: natToDigits m.natAbs) = (true, natToDigits m.natAbs) := by
            simp [readSign]
          rw [hrs]
          rw [floatBody_digits true hne hdig]
          rw [show (true : Bool) = decide (m < 0) by simp [hneg]]
          rw [hmk]
        · rw [if_neg hneg]
          rw [hct, dropWhile_cons_neg t (isDigit_not_ws hc), readSign_other t hm hp, ← hct]
          rw [floatBody_digits false hne hdig]
          rw [show (false : Bool) = decide (m < 0) by simp [hneg]]
          rw [hmk]
      · have hm0 : m ≠ 0 := by
          intro h0
          apply hfix
          rw [h0]
          decide
        have hrender : finToChars m 0 = expRender m 0 := by
          unfold finToChars
          rw [if_neg (by push_cast at hfix ⊢; omega)]
        rw [hrender]
        exact jsParseFloatChars_expRender hm0 (Or.inl rfl)
  | succ e' =>
      have hmod : m % 10 ≠ 0 := by
        rcases hnorm with h | h
        · exact absurd h (by omega)
        · exact h
      by_cases hfix : -5 ≤ ((natToDigits m.natAbs).length : Int) - ((e' + 1 : Nat) : Int) ∧
          ((natToDigits m.natAbs).length : Int) - ((e' + 1 : Nat) : Int) ≤ 21
      ·
        set ds := padZeros (e' + 1 + 1) (natToDigits m.natAbs) with hds
        have hdsdig : ∀ c ∈ ds, c.isDigit = true := padZeros_all_digit natToDigits_all_digit
        have hdslen : (e' + 1) + 1 ≤ ds.length := by
          rw [hds, padZeros_length]; omega
        set ip := ds.take (ds.length - (e' + 1)) with hip
        set fp := ds.drop (ds.length - (e' + 1)) with hfp
        have hipfp : ip ++ fp = ds := List.take_append_drop _ _
        have hipdig : ∀ c ∈ ip, c.isDigit = true := fun c hc =>
          hdsdig c (by rw [← hipfp]; exact List.mem_append.mpr (Or.inl hc))
        have hfpdig : ∀ c ∈ fp, c.isDigit = true := fun c hc =>
          hdsdig c (by rw [← hipfp]; exact List.mem_append.mpr (Or.inr hc))
        have hiplen : ip.length = ds.length - (e' + 1) := by
          rw [hip, List.length_take]; omega
        have hipne : ip ≠ [] := by
          intro hnil
          rw [hnil] at hiplen
          simp at hiplen
          omega
        have hfplen : fp.length = e' + 1 := by
          rw [hfp, List.length_drop]; omega
        obtain ⟨c, t, hct⟩ : ∃ c t, ip = c :: t := by
          cases hi : ip with
          | nil => exact absurd hi hipne
          | cons c t => exact ⟨c, t, rfl⟩
        have hc : c.isDigit = true := hipdig c (by rw [hct]; simp)
        obtain ⟨hm, hp, hI, _, _, _, _, _⟩ := isDigit_ne hc
        have hrender : finToChars m (e' + 1) =
            (if m < 0 then ['-'] else []) ++ ip ++ '.' :: fp := by
          unfold finToChars
          rw [if_pos hfix, if_neg (show ¬(e' + 1 = 0) by omega)]
        have hbody : ∀ ng, floatBody ng (ip ++ '.' :: fp) =
            some (mkNumFromSci (signedMantissa ng ip fp) (0 - ((e' + 1 : Nat) : Int))) := by
          intro ng
          unfold floatBody
          have hInf : "Infinity".data.isPrefixOf (ip ++ '.' :: fp) = false := by
            rw [hct]; exact infPrefix_false _ hI
          rw [hInf]
          rw [takeWhile_append_all hipdig, dropWhile_append_all hipdig]
          have hdot : ('.' :: fp).takeWhile Char.isDigit = [] := by
            apply takeWhile_cons_neg; decide
          have hdot2 : ('.' :: fp).dropWhile Char.isDigit = '.' :: fp := by
            apply dropWhile_cons_neg; decide
          rw [hdot, hdot2, List.append_nil]
          have hfr : fracPart ('.' :: fp) = (fp.takeWhile Char.isDigit, fp.dropWhile Char.isDigit) := rfl
          rw [hfr]
          rw [takeWhile_all hfpdig, dropWhile_all hfpdig]
          have hfpne : fp ≠ [] := by
            intro hnil; rw [hnil] at hfplen; simp at hfplen
          simp only [hfpne, and_false, if_false, Bool.false_eq_true]
          have hexp : expPart [] = 0 := rfl
          rw [hexp, hfplen]
        have hmk : ∀ ng, ng = decide (m < 0) →
            mkNumFromSci (signedMantissa ng ip fp) (0 - ((e' + 1 : Nat) : Int)) = .fin m (e' + 1) := by
          intro ng hng
          have hsm : signedMantissa ng ip fp = m := by
            refine signedMantissa_eq _ _ _ ?_ ?_
            · rw [hipfp, hds, digitsToNat_padZeros, digitsToNat_natToDigits]
            · rw [hng]; simp
          rw [hsm]
          unfold mkNumFromSci
          rw [if_neg (by push_cast; omega)]
          have harg : (-(0 - ((e' + 1 : Nat) : Int))).toNat = e' + 1 := by push_cast; omega
          rw [harg, normFin_of_not_dvd hmod]
        unfold jsParseFloatChars
        rw [hrender]
        by_cases hneg : m < 0
        · rw [if_pos hneg]
          rw [List.singleton_append, List.cons_append]
          have hws : isJsWs '-' = false := by decide
          rw [dropWhile_cons_neg _ hws]
          have hrs : readSign ('-' :: (ip ++ '.' :: fp)) = (true, ip ++ '.' :: fp) := by
            simp [readSign]
          rw [← List.cons_append] at hrs ⊢
          rw [hrs]
          rw [hbody true]
          rw [hmk true (by simp [hneg])]
        · rw [if_neg hneg]
          rw [List.nil_append]
          rw [hct, List.cons_append]
          rw [dropWhile_cons_neg _ (isDigit_not_ws hc), readSign_other _ hm hp]
          rw [← List.cons_append, ← hct]
          rw [hbody false]
          rw [hmk false (by simp [hneg])]
      · have hrender : finToChars m (e' + 1) = expRender m (e' + 1) := by
          unfold finToChars
          rw [if_neg hfix]
        rw [hrender]
        have hm0 : m ≠ 0 := by
          intro h0
          apply hmod
          rw [h0]
          rfl
        exact jsParseFloatChars_expRender hm0 (Or.inr hmod)

/-- Roundtrip for every canonical number, including the infinities. -/
theorem jsParseFloatChars_roundtrip {n : JsNum} (h : IsNormNum n) :
    jsParseFloatChars (jsNumToChars n) = some n := by
  cases n with
  | fin m e => exact jsParseFloatChars_finToChars h
  | inf pos => cases pos <;> rfl

end JsonGen


namespace JsonGen

/-! ## JS values

JSON-representable JS values plus `undefined`.  Objects are insertion-ordered
own-property lists.  Arrays and field lists are mutual inductives (rather
than nested `List`s) so that all recursions are structural and reduce inside
the kernel. -/

mutual
inductive JsVal where
  | str (s : String)
  | num (n : JsNum)
  | bool (b : Bool)
  | null
  | undef
  | arr (xs : JsItems)
  | obj (fs : JsFields)
inductive JsItems where
  | nil
  | cons (hd : JsVal) (tl : JsItems)
inductive JsFields where
  | nil
  | cons (k : String) (v : JsVal) (tl : JsFields)
end

mutual
def jsSize : JsVal → Nat
  | .str _ => 1
  | .num _ => 1
  | .bool _ => 1
  | .null => 1
  | .undef => 1
  | .arr xs => 2 + itemsSize xs
  | .obj fs => 2 + fieldsSize fs
def itemsSize : JsItems → Nat
  | .nil => 0
  | .cons x xs => 1 + jsSize x + itemsSize xs
def fieldsSize : JsFields → Nat
  | .nil => 0
  | .cons _ v fs => 1 + jsSize v + fieldsSize fs
end

def JsItems.toList : JsItems → List JsVal
  | .nil => []
  | .cons x xs => x :: xs.toList

def JsItems.ofList : List JsVal → JsItems
  | [] => .nil
  | x :: xs => .cons x (JsItems.ofList xs)

def JsItems.length : JsItems → Nat
  | .nil => 0
  | .cons _ xs => 1 + xs.length

/-- `xs[i]` on an array. -/
def JsItems.get? : JsItems → Nat → Option JsVal
  | .nil, _ => none
  | .cons x _, 0 => some x
  | .cons _ xs, i + 1 => xs.get? i

/-- `xs.push(v)`. -/
def JsItems.push : JsItems → JsVal → JsItems
  | .nil, v => .cons v .nil
  | .cons x xs, v => .cons x (xs.push v)

def JsFields.toList : JsFields → List (String × JsVal)
  | .nil => []
  | .cons k v fs => (k, v) :: fs.toList

def JsFields.ofList : List (String × JsVal) → JsFields
  | [] => .nil
  | (k, v) :: fs => .cons k v (JsFields.ofList fs)

/-- Declared keys, in order. -/
def JsFields.keys : JsFields → List String
  | .nil => []
  | .cons k _ fs => k :: fs.keys

/-- First-occurrence lookup among an object's fields. -/
def lookupField : JsFields → String → Option JsVal
  | .nil, _ => none
  | .cons k' v rest, k => if k' = k then some v else lookupField rest k

/-- JS property assignment `o[k] = v`: update in place if present, else append. -/
def objInsert : JsFields → String → JsVal → JsFields
  | .nil, k, v => .cons k v .nil
  | .cons k' v' rest, k, v =>
      if k' = k then .cons k' v rest else .cons k' v' (objInsert rest k v)

def objFromPairsGo : JsFields → JsFields → JsFields
  | acc, .nil => acc
  | acc, .cons k v rest => objFromPairsGo (objInsert acc k v) rest

/-- Building an object by successive assignments. -/
def objFromPairs (ps : JsFields) : JsFields := objFromPairsGo .nil ps

/-- A canonical array-index key (digits with no leading zero). -/
def canonIdx (k : String) : Option Nat :=
  if k.data ≠ [] ∧ k.data.all Char.isDigit then
    if natToDigits (digitsToNat k.data) = k.data then some (digitsToNat k.data) else none
  else none

/-- `key in data` / `data[key]` for the object-typed values the validator
walks: plain objects and arrays (index keys and `length`). -/
def propLookup : JsVal → String → Option JsVal
  | .obj fs, k => lookupField fs k
  | .arr xs, k =>
      if k = "length" then some (.num (.fin (xs.length : Int) 0))
      else
        match canonIdx k with
        | some i => xs.get? i
        | none => none
  | _, _ => none

mutual
/-- JS `String(value)` coercion, as a character list. -/
def jsToStringChars : JsVal → List Char
  | .str s => s.data
  | .num n => jsNumToChars n
  | .bool b => if b then "true".data else "false".data
  | .null => "null".data
  | .undef => "undefined".data
  | .arr xs => arrJoinChars xs
  | .obj _ => "[object Object]".data
/-- `Array.prototype.toString`: elements joined with commas, `null` /
`undefined` elements rendering as the empty string. -/
def arrJoinChars : JsItems → List Char
  | .nil => []
  | .cons x xs =>
      (match x with
       | .null => []
       | .undef => []
       | v => jsToStringChars v) ++
      (match xs with
       | .nil => []
       | .cons y ys => ',' :: arrJoinChars (.cons y ys))
end

def jsToString (v : JsVal) : String := String.mk (jsToStringChars v)

theorem jsToString_str (s : String) : jsToString (.str s) = s := rfl

theorem jsToString_num (n : JsNum) : jsToString (.num n) = String.mk (jsNumToChars n) := rfl

end JsonGen

namespace JsonGen

/-! ## JSON.parse (strict JSON grammar, exact numbers) -/

def jsonWs (c : Char) : Bool := c = ' ' || c = '\t' || c = '\n' || c = '\r'

def escChar : Char → Option Char
  | '"' => some '"'
  | '\\' => some '\\'
  | '/' => some '/'
  | 'b' => some '\x08'
  | 'f' => some '\x0c'
  | 'n' => some '\n'
  | 'r' => some '\r'
  | 't' => some '\t'
  | _ => none

def hexQuadVal (a b c d : Char) : Nat :=
  ((hexVal a * 16 + hexVal b) * 16 + hexVal c) * 16 + hexVal d

/-- Body of a JSON string literal after the opening quote; returns the
decoded characters and the remainder after the closing quote. -/
def parseStrBody : Nat → List Char → Option (List Char × List Char)
  | 0, _ => none
  | _ + 1, [] => none
  | f + 1, c :: rest =>
    if c = '"' then some ([], rest)
    else if c = '\\' then
      match rest with
      | [] => none
      | e :: rest2 =>
        if e = 'u' then
          match rest2 with
          | a :: b :: c2 :: d :: rest3 =>
            if isHexDigit a && isHexDigit b && isHexDigit c2 && isHexDigit d then
              (parseStrBody f rest3).map (fun pr => (Char.ofNat (hexQuadVal a b c2 d) :: pr.1, pr.2))
            else none
          | _ => none
        else
          match escChar e with
          | some ce => (parseStrBody f rest2).map (fun pr => (ce :: pr.1, pr.2))
          | none => none
    else if c.toNat < 32 then none
    else (parseStrBody f rest).map (fun pr => (c :: pr.1, pr.2))

/-- A strict JSON number literal prefix. -/
def parseJsonNumber (cs : List Char) : Option (JsNum × List Char) :=
  let neg : Bool := cs.head? = some '-'
  let cs1 := if neg then cs.tail else cs
  match cs1.head? with
  | none => none
  | some c =>
    if ¬ c.isDigit then none
    else
      let ipart := if c = '0' then ['0'] else cs1.takeWhile Char.isDigit
      let r1 := cs1.drop ipart.length
      let hasFrac : Bool := r1.head? = some '.'
      let frac := if hasFrac then r1.tail.takeWhile Char.isDigit else []
      if hasFrac ∧ frac = [] then none
      else
        let r2 := if hasFrac then r1.tail.drop frac.length else r1
        let hasExp : Bool := r2.head? = some 'e' || r2.head? = some 'E'
        if hasExp then
          let t := r2.tail
          let eneg : Bool := t.head? = some '-'
          let t1 := if t.head? = some '-' ∨ t.head? = some '+' then t.tail else t
          let eds := t1.takeWhile Char.isDigit
          if eds = [] then none
          else
            let expv : Int := if eneg then -(digitsToNat eds : Int) else (digitsToNat eds : Int)
            some (mkNumFromSci (signedMantissa neg ipart frac) (expv - (frac.length : Int)),
              t1.drop eds.length)
        else
          some (mkNumFromSci (signedMantissa neg ipart frac) (0 - (frac.length : Int)), r2)

/-- Array elements after the opening bracket (non-empty case). -/
def parseJsonArrItems (pv : List Char → Option (JsVal × List Char)) :
    Nat → List Char → JsItems → Option (JsVal × List Char)
  | 0, _, _ => none
  | g + 1, cs, acc =>
    match pv cs with
    | none => none
    | some (v, r) =>
      match r.dropWhile jsonWs with
      | ',' :: r2 => parseJsonArrItems pv g r2 (acc.push v)
      | ']' :: r2 => some (.arr (acc.push v), r2)
      | _ => none

/-- Object members after the opening brace (non-empty case).  Duplicate
keys behave like JS property assignment (last value wins, first position). -/
def parseJsonObjItems (pv : List Char → Option (JsVal × List Char)) :
    Nat → List Char → JsFields → Option (JsVal × List Char)
  | 0, _, _ => none
  | g + 1, cs, acc =>
    match cs.dropWhile jsonWs with
    | '"' :: rest =>
      match parseStrBody rest.length rest with
      | none => none
      | some (key, r1) =>
        match r1.dropWhile jsonWs with
        | ':' :: r3 =>
          match pv r3 with
          | none => none
          | some (v, r4) =>
            match r4.dropWhile jsonWs with
            | ',' :: r6 => parseJsonObjItems pv g r6 (objInsert acc (String.mk key) v)
            | '\x7d' :: r6 => some (.obj (objInsert acc (String.mk key) v), r6)
            | _ => none
        | _ => none
    | _ => none

/-- A JSON value and the remainder (fuel-driven recursive descent). -/
def parseJsonValF : Nat → List Char → Option (JsVal × List Char)
  | 0, _ => none
  | f + 1, cs0 =>
    match cs0.dropWhile jsonWs with
    | [] => none
    | c :: rest =>
      if c = '\x7b' then
        match rest.dropWhile jsonWs with
        | '\x7d' :: r2 => some (.obj .nil, r2)
        | _ => parseJsonObjItems (parseJsonValF f) (f + 1) rest .nil
      else if c = '[' then
        match rest.dropWhile jsonWs with
        | ']' :: r2 => some (.arr .nil, r2)
        | _ => parseJsonArrItems (parseJsonValF f) (f + 1) rest .nil
      else if c = '"' then
        (parseStrBody rest.length rest).map (fun pr => (.str (String.mk pr.1), pr.2))
      else if "true".data.isPrefixOf (c :: rest) then some (.bool true, (c :: rest).drop 4)
      else if "false".data.isPrefixOf (c :: rest) then some (.bool false, (c :: rest).drop 5)
      else if "null".data.isPrefixOf (c :: rest) then some (.null, (c :: rest).drop 4)
      else (parseJsonNumber (c :: rest)).map (fun pr => (.num pr.1, pr.2))

def parseJsonChars (cs : List Char) : Except String JsVal :=
  match parseJsonValF (cs.length + 1) cs with
  | some (v, rest) =>
      if rest.dropWhile jsonWs = [] then .ok v
      else .error "SyntaxError: Unexpected token in JSON"
  | none => .error "SyntaxError: Unexpected token in JSON"

/-- `JSON.parse` on text (the engine-specific `SyntaxError` message text is
collapsed to one fixed string). -/
def parseJson (s : String) : Except String JsVal := parseJsonChars s.data

/-! ## JSON.stringify -/

/-- Escaping of one character inside a stringified string literal. -/
def jsonEscChar (c : Char) : List Char :=
  if c = '"' then ['\\', '"']
  else if c = '\\' then ['\\', '\\']
  else if c = '\x08' then ['\\', 'b']
  else if c = '\x0c' then ['\\', 'f']
  else if c = '\n' then ['\\', 'n']
  else if c = '\r' then ['\\', 'r']
  else if c = '\t' then ['\\', 't']
  else if c.toNat < 32 then
    '\\' :: 'u' :: '0' :: '0' ::
      [digitChar (c.toNat / 16), if c.toNat % 16 < 10 then digitChar (c.toNat % 16)
        else Char.ofNat (87 + c.toNat % 16)]
  else [c]

def jsonQuote (s : String) : List Char :=
  '"' :: (s.data.map jsonEscChar).flatten ++ ['"']

mutual
/-- `JSON.stringify(v)`; `none` models the `undefined` result. -/
def jsonStringifyChars : JsVal → Option (List Char)
  | .str s => some (jsonQuote s)
  | .num (.fin m e) => some (finToChars m e)
  | .num (.inf _) => some "null".data
  | .bool b => some (if b then "true".data else "false".data)
  | .null => some "null".data
  | .undef => none
  | .arr xs => some ('[' :: stringifyItems xs ++ [']'])
  | .obj fs => some ('\x7b' :: stringifyFields fs ++ ['\x7d'])
/-- Array elements: `undefined` renders as `null`; comma separated. -/
def stringifyItems : JsItems → List Char
  | .nil => []
  | .cons x xs =>
      ((jsonStringifyChars x).getD "null".data) ++
      (match xs with
       | .nil => []
       | .cons y ys => ',' :: stringifyItems (.cons y ys))
/-- Object members: `undefined`-valued properties are skipped. -/
def stringifyFields : JsFields → List Char
  | .nil => []
  | .cons k v fs =>
      match jsonStringifyChars v with
      | none => stringifyFields fs
      | some cv =>
          jsonQuote k ++ ':' :: cv ++
          (match stringifyFields fs with
           | [] => []
           | r => ',' :: r)
end

/-- `JSON.stringify` as used by the generator on schemas (always an object,
hence always a string). -/
def jsonStringify (v : JsVal) : String :=
  String.mk ((jsonStringifyChars v).getD "undefined".data)

end JsonGen

namespace JsonGen

/-! ## Remaining JS string operations used by the library -/

/-- JS `String.prototype.split` with a one-character separator. -/
def splitOnChar (sep : Char) : List Char → List (List Char)
  | [] => [[]]
  | c :: rest =>
    if c = sep then [] :: splitOnChar sep rest
    else
      match splitOnChar sep rest with
      | [] => [[c]]
      | p :: ps => (c :: p) :: ps

/-- Characters before the first occurrence of `sep`.  Under a
`startsWith sep` guard, `s.split(sep)[1]` is `takeUntilSep sep` of the text
after the leading separator, which is how the library reads its type tags. -/
def takeUntilSep (sep : List Char) : List Char → List Char
  | [] => []
  | c :: rest => if sep.isPrefixOf (c :: rest) then [] else c :: takeUntilSep sep rest

/-- Does `sep` occur inside `cs`? -/
def hasSeq (sep : List Char) : List Char → Bool
  | [] => sep.isPrefixOf []
  | c :: rest => sep.isPrefixOf (c :: rest) || hasSeq sep rest

/-- `delim.repeat n`. -/
def repeatChars (s : List Char) : Nat → List Char
  | 0 => []
  | n + 1 => s ++ repeatChars s n

/-! ## `_validateType`: the type coercer -/

/-- `type.split('type:')[1].trim()` under the `startsWith('type:')` guard. -/
def typeStrOf (type : String) : List Char :=
  trimChars (takeUntilSep "type:".data (type.data.drop 5))

/-- `typeStr.slice(5, -1).split(',').map(v => v.trim())`. -/
def enumOptions (typeStr : List Char) : List (List Char) :=
  (splitOnChar ',' ((typeStr.drop 5).dropLast)).map trimChars

/-- The `case 'boolean': case 'bool':` arm: native booleans pass, the
case-insensitive literals `"true"`/`"false"` convert, all else throws. -/
def coerceBoolean (value : JsVal) (key : String) : Except String JsVal :=
  match value with
  | .str s =>
      if s.data.map lowerChar = "true".data then .ok (.bool true)
      else if s.data.map lowerChar = "false".data then .ok (.bool false)
      else .error ("Field \"" ++ key ++ "\" must be a boolean")
  | .bool b => .ok (.bool b)
  | .num n => .error ("Field \"" ++ key ++ "\" must be a boolean")
  | .null => .error ("Field \"" ++ key ++ "\" must be a boolean")
  | .undef => .error ("Field \"" ++ key ++ "\" must be a boolean")
  | .arr xs => .error ("Field \"" ++ key ++ "\" must be a boolean")
  | .obj fs => .error ("Field \"" ++ key ++ "\" must be a boolean")

/-- The result of `JSON.parse(value)` restricted to arrays, as the
`case 'array': case 'list':` fallback uses it (any parse failure or
non-array result throws the same message). -/
def coerceParsedArray (r : Except String JsVal) (key : String) : Except String JsVal :=
  match r with
  | .ok (.arr ys) => .ok (.arr ys)
  | .ok (.str _) => .error ("Field \"" ++ key ++ "\" must be an array")
  | .ok (.num _) => .error ("Field \"" ++ key ++ "\" must be an array")
  | .ok (.bool _) => .error ("Field \"" ++ key ++ "\" must be an array")
  | .ok .null => .error ("Field \"" ++ key ++ "\" must be an array")
  | .ok .undef => .error ("Field \"" ++ key ++ "\" must be an array")
  | .ok (.obj _) => .error ("Field \"" ++ key ++ "\" must be an array")
  | .error _ => .error ("Field \"" ++ key ++ "\" must be an array")

/-- The `case 'array': case 'list':` arm. -/
def coerceArray (value : JsVal) (key : String) : Except String JsVal :=
  match value with
  | .arr xs => .ok (.arr xs)
  | .str s => coerceParsedArray (parseJson (jsToString (.str s))) key
  | .num n => coerceParsedArray (parseJson (jsToString (.num n))) key
  | .bool b => coerceParsedArray (parseJson (jsToString (.bool b))) key
  | .null => coerceParsedArray (parseJson (jsToString .null)) key
  | .undef => coerceParsedArray (parseJson (jsToString .undef)) key
  | .obj fs => coerceParsedArray (parseJson (jsToString (.obj fs))) key

/-- The enum membership test: the value must be a string equal to one of
the parsed options (anything non-string compares unequal to each option). -/
def enumCheck (value : JsVal) (typeStr : List Char) : Bool :=
  match value with
  | .str s => (enumOptions typeStr).contains s.data
  | _ => false

/-- The `switch (typeStr.toLowerCase())` body plus the `enum[...]` check. -/
def coerceByKind (typeStr : List Char) (value : JsVal) (key : String) : Except String JsVal :=
  if typeStr.map lowerChar = "string".data ∨ typeStr.map lowerChar = "str".data then
    .ok (.str (jsToString value))
  else if typeStr.map lowerChar = "number".data ∨ typeStr.map lowerChar = "float".data then
    match jsParseFloat (jsToString value) with
    | some n => .ok (.num n)
    | none => .error ("Field \"" ++ key ++ "\" must be a number")
  else if typeStr.map lowerChar = "integer".data ∨ typeStr.map lowerChar = "int".data then
    match jsParseInt (jsToString value) with
    | some m => .ok (.num (.fin m 0))
    | none => .error ("Field \"" ++ key ++ "\" must be an integer")
  else if typeStr.map lowerChar = "boolean".data ∨ typeStr.map lowerChar = "bool".data then
    coerceBoolean value key
  else if typeStr.map lowerChar = "array".data ∨ typeStr.map lowerChar = "list".data then
    coerceArray value key
  else if "enum[".data.isPrefixOf typeStr then
    if enumCheck value typeStr then .ok value
    else .error ("Field \"" ++ key ++ "\" must be one of: " ++
      String.intercalate ", " ((enumOptions typeStr).map String.mk))
  else .ok value

/-- `_validateType(value, type, key)`. -/
def validateType (value : JsVal) (type : String) (key : String) : Except String JsVal :=
  if "type:".data.isPrefixOf type.data then coerceByKind (typeStrOf type) value key
  else .ok value

/-! ## `_cleanJsonString`: the response sanitizer -/

/-- Length of a regex match of ``/```(?:json)?\n?/`` at the head, if any. -/
def fenceLen (cs : List Char) : Option Nat :=
  if "```".data.isPrefixOf cs then
    let n := if "json".data.isPrefixOf (cs.drop 3) then 7 else 3
    some (if (cs.drop n).head? = some '\n' then n + 1 else n)
  else none

/-- Global replacement of the fence pattern by the empty string: scan left
to right, drop each leftmost match, continue after it. -/
def stripFencesF : Nat → List Char → List Char
  | 0, cs => cs
  | _ + 1, [] => []
  | f + 1, c :: rest =>
    match fenceLen (c :: rest) with
    | some n => stripFencesF f ((c :: rest).drop n)
    | none => c :: stripFencesF f rest

/-- `_cleanJsonString(str)`: remove code-fence openers anywhere, strip
trailing backticks, trim whitespace. -/
def cleanJsonString (str : String) : String :=
  String.mk (trimChars (dropWhileEnd (fun c => c = backtick)
    (stripFencesF str.data.length str.data)))

/-! ## `_formatValue` and `_createStructuredPrompt` -/

mutual
/-- `_formatValue(value)`: quote strings, recursively bracket arrays,
`String(...)` everything else. -/
def formatValue : JsVal → String
  | .str s => "\"" ++ s ++ "\""
  | .arr xs => "[" ++ formatValueItems xs ++ "]"
  | v => jsToString v
def formatValueItems : JsItems → String
  | .nil => ""
  | .cons x .nil => formatValue x
  | .cons x (.cons y ys) => formatValue x ++ ", " ++ formatValueItems (.cons y ys)
end

/-- The fixed default example values of `_createStructuredPrompt`. -/
def exampleArray : JsVal := .arr (.cons (.str "item1") (.cons (.str "item2") .nil))

/-- Lookup `example[baseType.toLowerCase()]` in the default example set. -/
def exampleFor (lower : List Char) : Option JsVal :=
  if lower = "string".data then some (.str "example_text")
  else if lower = "integer".data then some (.num (.fin 42 0))
  else if lower = "float".data then some (.num (.fin 425 1))
  else if lower = "boolean".data then some (.bool true)
  else if lower = "array".data then some exampleArray
  else none

mutual
/-- `formatField(key, type, path)` inside `_createStructuredPrompt`. -/
def formatField (key : String) (ty : JsVal) (path : String) : String :=
  match ty with
  | .str t =>
      if "type:".data.isPrefixOf t.data then
        if "enum[".data.isPrefixOf (typeStrOf t) then
          (if path = "" then key else path ++ "." ++ key) ++ "=" ++
            formatValue (.str (String.mk ((enumOptions (typeStrOf t)).headD [])))
        else
          (if path = "" then key else path ++ "." ++ key) ++ "=" ++
            formatValue ((exampleFor ((typeStrOf t).map lowerChar)).getD (.str "example_text"))
      else (if path = "" then key else path ++ "." ++ key) ++ "=" ++ formatValue exampleArray
  | .obj fs => formatFieldEntries fs (if path = "" then key else path ++ "." ++ key)
  | _ => (if path = "" then key else path ++ "." ++ key) ++ "=" ++ formatValue exampleArray
def formatFieldEntries : JsFields → String → String
  | .nil, _ => ""
  | .cons k v .nil, path => formatField k v path
  | .cons k v (.cons k2 v2 rest), path =>
      formatField k v path ++ ", " ++ formatFieldEntries (.cons k2 v2 rest) path
end

/-- `Object.entries`, for the values `generate` can pass as a schema. -/
def jsEntries : JsVal → List (String × JsVal)
  | .obj fs => fs.toList
  | .arr xs => xs.toList.enum.map (fun iv => (String.mk (natToDigits iv.1), iv.2))
  | .str s => s.data.enum.map (fun ic => (String.mk (natToDigits ic.1), .str (String.mk [ic.2])))
  | _ => []

/-- `_createStructuredPrompt(userPrompt, schema)` with the default examples. -/
def createStructuredPrompt (userPrompt : String) (schema : JsVal) : String :=
  userPrompt ++
    "\nReturn a raw JSON object (no markdown, no code blocks) with exactly these fields and values as a template: " ++
    String.intercalate ", " ((jsEntries schema).map (fun kv => formatField kv.1 kv.2 ""))

/-! ## `_wrapFormat`: the key-wrapping template -/

mutual
/-- `_wrapFormat(format, level)` (the default call starts at level 1). -/
def wrapFormat (delim : String) : JsVal → Nat → JsVal
  | .arr items, level => .arr (wrapItems delim items level)
  | .obj fs, level => .obj (wrapFields delim fs level .nil)
  | leaf, _ => .str (String.mk ('<' :: jsToStringChars leaf ++ ['>']))
/-- Arrays map each element at `level + 1`, wrapping no key. -/
def wrapItems (delim : String) : JsItems → Nat → JsItems
  | .nil, _ => .nil
  | .cons x xs, level => .cons (wrapFormat delim x (level + 1)) (wrapItems delim xs level)
/-- Objects assign `delim.repeat(level) + key + delim.repeat(level)` keys in
insertion order. -/
def wrapFields (delim : String) : JsFields → Nat → JsFields → JsFields
  | .nil, _, acc => acc
  | .cons k v rest, level, acc =>
      wrapFields delim rest level
        (objInsert acc
          (String.mk (repeatChars delim.data level ++ k.data ++ repeatChars delim.data level))
          (wrapFormat delim v (level + 1)))
end

/-! ## `_validateSchema`: the schema validator -/

/-- `schema[0]` (`undefined` when the schema array is empty). -/
def headItem : JsItems → JsVal
  | .nil => .undef
  | .cons x _ => x

/-- Traverse an array's elements with a validator, failing fast. -/
def exceptMapItems (V : JsVal → Except String JsVal) : JsItems → Except String JsItems
  | .nil => .ok .nil
  | .cons x xs =>
      match V x with
      | .error m => .error m
      | .ok v =>
        match exceptMapItems V xs with
        | .error m => .error m
        | .ok vs => .ok (.cons v vs)

/-- The declared-fields loop of `_validateSchema`: require each declared key
(`key in data`), validate its value, and collect the results in order. -/
def validateFieldsGo (V : JsVal → JsVal → Except String JsVal) (data : JsVal) :
    JsFields → Except String JsFields
  | .nil => .ok .nil
  | .cons k sv rest =>
    match propLookup data k with
    | none => .error ("Missing required field: " ++ k)
    | some dv =>
      match V dv sv with
      | .error m => .error m
      | .ok v =>
        match validateFieldsGo V data rest with
        | .error m => .error m
        | .ok vs => .ok (.cons k v vs)

/-- `_validateSchema(data, schema)` (fuel bounds the schema nesting depth;
`jsSize schema` always suffices). -/
def validateSchemaF : Nat → JsVal → JsVal → Except String JsVal
  | 0, data, _ => .ok data
  | f + 1, data, schema =>
    match schema with
    | .str s =>
        if "type:".data.isPrefixOf s.data then validateType data s "field" else .ok data
    | .arr ss =>
        (match data with
         | .arr ds => (exceptMapItems (fun d => validateSchemaF f d (headItem ss)) ds).map JsVal.arr
         | _ => .error "Expected an array")
    | .obj fs =>
        (match data with
         | .arr _ =>
             (validateFieldsGo (validateSchemaF f) data fs).map (fun ps => .obj (objFromPairs ps))
         | .obj _ =>
             (validateFieldsGo (validateSchemaF f) data fs).map (fun ps => .obj (objFromPairs ps))
         | _ => .error "Expected an object")
    | _ => .ok data

def validateSchema (data schema : JsVal) : Except String JsVal :=
  validateSchemaF (jsSize schema) data schema

end JsonGen

namespace JsonGen

/-! ## The generation orchestrator

`fetch` and the response accessors are external collaborators; per attempt
the transport oracle yields either a non-ok response (already reduced to the
message `generate` would extract from it) or the returned message content.
The returned trace records, per issued model call, the (system, user)
message pair that was sent. -/

structure GenConfig where
  apiKey : String
  model : String := "mistralai/mistral-nemo"
  referer : Option String := none
  appName : Option String := none
  maxRetries : Int := 3
  delimiter : String := "###"

inductive FetchOutcome where
  | httpFail (msg : String)
  | content (body : String)

/-- `Object.keys(x).length` for the values a caller can pass as a schema. -/
def objectKeysCount : JsVal → Except String Nat
  | .obj fs => .ok fs.keys.dedup.length
  | .arr xs => .ok xs.length
  | .str s => .ok s.data.length
  | .num _ => .ok 0
  | .bool _ => .ok 0
  | .null => .error "TypeError: Cannot convert undefined or null to object"
  | .undef => .error "TypeError: Cannot convert undefined or null to object"

/-- The custom-validator loop: sequential, short-circuiting on the first
`{valid: false, error}`. -/
def runCustomValidators : List (JsVal → Bool × String) → JsVal → Except String JsVal
  | [], r => .ok r
  | v :: rest, r => if (v r).1 then runCustomValidators rest r else .error (v r).2

/-- One retry-loop iteration body after the transport returns: non-ok
responses raise `OpenRouter API error: ...`; otherwise sanitize, parse,
validate against the schema, and run the custom validators. -/
def attemptOnce (schema : JsVal) (cvs : List (JsVal → Bool × String)) :
    FetchOutcome → Except String JsVal
  | .httpFail msg => .error ("OpenRouter API error: " ++ msg)
  | .content body =>
    match parseJson (cleanJsonString body) with
    | .error m => .error m
    | .ok parsed =>
      match validateSchema parsed schema with
      | .error m => .error m
      | .ok r => runCustomValidators cvs r

/-- The default system prompt of `generate`. -/
def baseSystemPrompt (schema : JsVal) : String :=
  "You are a JSON generator. Generate a raw JSON object (no markdown, no code blocks) that conforms to this schema: " ++
  jsonStringify schema ++
  ". \nImportant:\n- Return ONLY the raw JSON object, no markdown formatting or code blocks\n- Ensure all fields are present and match their types exactly\n- Do not include any explanation or additional text\n- Use the field names and types exactly as specified"

/-- The bounded retry loop of `generate`: the second `Nat` is the number of
iterations left (`maxRetries - attempt`); `lastError` is appended to the
system message; failing on the last iteration re-raises, success returns
immediately, and running out of iterations resolves to `undefined`. -/
def generateLoop (schema : JsVal) (cvs : List (JsVal → Bool × String))
    (transport : Nat → FetchOutcome) (finalSys userMsg : String) :
    Nat → Nat → Option String → Except String JsVal × List (String × String)
  | _, 0, _ => (.ok .undef, [])
  | attempt, remaining + 1, lastError =>
    let sys := finalSys ++
      (match lastError with
       | some e => "\nPrevious error: " ++ e
       | none => "")
    match attemptOnce schema cvs (transport attempt) with
    | .ok r => (.ok r, [(sys, userMsg)])
    | .error m =>
      if remaining = 0 then (.error m, [(sys, userMsg)])
      else
        let next := generateLoop schema cvs transport finalSys userMsg (attempt + 1) remaining (some m)
        (next.1, (sys, userMsg) :: next.2)

/-- `generate({prompt, schema, systemPrompt, customValidators})`.

If `Object.keys(schema).length === 0` the source calls
`this._makeRequest(...)`, a method that does not exist anywhere in the
class, so the call raises `TypeError: this._makeRequest is not a function`
before any model call is made.  Otherwise the source computes the wrapped
schema into a local that is never read again (`_wrapFormat`'s result is
dead there), builds the structured prompt and system message, and runs the
retry loop. -/
def generate (cfg : GenConfig) (transport : Nat → FetchOutcome) (prompt : String)
    (schema : JsVal) (systemPrompt : Option String)
    (customValidators : List (JsVal → Bool × String)) :
    Except String JsVal × List (String × String) :=
  match objectKeysCount schema with
  | .error m => (.error m, [])
  | .ok 0 => (.error "TypeError: this._makeRequest is not a function", [])
  | .ok (_ + 1) =>
      generateLoop schema customValidators transport
        (systemPrompt.getD (baseSystemPrompt schema))
        (createStructuredPrompt prompt schema)
        0 cfg.maxRetries.toNat none

end JsonGen

namespace JsonGen

/-! ## Shared helper lemmas for the claims -/

theorem strAppend_empty (s : String) : s ++ "" = s := by
  show String.mk (s.data ++ []) = s
  rw [List.append_nil]

theorem strAppend_assoc (a b c : String) : (a ++ b) ++ c = a ++ (b ++ c) := by
  show String.mk ((a.data ++ b.data) ++ c.data) = String.mk (a.data ++ (b.data ++ c.data))
  rw [List.append_assoc]

/-- One unrolling of the retry loop. -/
theorem generateLoop_step (schema : JsVal) (cvs : List (JsVal → Bool × String))
    (transport : Nat → FetchOutcome) (fs um : String)
    (attempt remaining : Nat) (lastError : Option String) :
    generateLoop schema cvs transport fs um attempt (remaining + 1) lastError =
      (let sys := fs ++
        (match lastError with
         | some e => "\nPrevious error: " ++ e
         | none => "")
       match attemptOnce schema cvs (transport attempt) with
       | .ok r => (.ok r, [(sys, um)])
       | .error m =>
         if remaining = 0 then (.error m, [(sys, um)])
         else
           let next := generateLoop schema cvs transport fs um (attempt + 1) remaining (some m)
           (next.1, (sys, um) :: next.2)) := rfl

end JsonGen

namespace JsonGen

/-! ## Claims -/

/-- C1 (code_bug evidence): for every call to `generate` with an empty
schema, the code does not short-circuit into a single model call as the
claim describes: it invokes `this._makeRequest`, a method that exists
nowhere in the class, so the returned promise rejects with a `TypeError`
before any model call happens (the trace of issued calls is empty), and
the raised error is neither a provider nor a parse error. -/
theorem generate_empty_schema_typeError (cfg : GenConfig)
    (transport : Nat → FetchOutcome) (prompt : String) (schema : JsVal)
    (systemPrompt : Option String) (cvs : List (JsVal → Bool × String))
    (h : objectKeysCount schema = .ok 0) :
    generate cfg transport prompt schema systemPrompt cvs =
      (.error "TypeError: this._makeRequest is not a function", []) := by
  unfold generate
  rw [h]

theorem generate_empty_schema_typeError_witness :
    objectKeysCount (.obj .nil) = .ok 0 ∧
    generate { apiKey := "k" } (fun _ => .httpFail "x") "p" (.obj .nil) none [] =
      (.error "TypeError: this._makeRequest is not a function", []) :=
  ⟨rfl, generate_empty_schema_typeError _ _ _ _ _ _ rfl⟩

/-- C10: if the generator is constructed with `maxRetries ≤ 0`, `generate`
with a non-empty schema runs the retry loop zero times: no model call is
issued (empty trace), nothing is validated, and the call resolves to
`undefined` rather than raising. -/
theorem generate_nonpositive_maxRetries (cfg : GenConfig)
    (transport : Nat → FetchOutcome) (prompt : String) (schema : JsVal)
    (systemPrompt : Option String) (cvs : List (JsVal → Bool × String)) (k : Nat)
    (hm : cfg.maxRetries ≤ 0) (hk : objectKeysCount schema = .ok (k + 1)) :
    generate cfg transport prompt schema systemPrompt cvs = (.ok .undef, []) := by
  unfold generate
  rw [hk]
  rw [Int.toNat_of_nonpos hm]
  rfl

theorem generate_nonpositive_maxRetries_witness :
    ({ apiKey := "k", maxRetries := 0 : GenConfig }).maxRetries ≤ 0 ∧
    objectKeysCount (.obj (.cons "a" (.str "type:string") .nil)) = .ok (0 + 1) ∧
    generate { apiKey := "k", maxRetries := 0 } (fun _ => .httpFail "x") "p"
      (.obj (.cons "a" (.str "type:string") .nil)) none [] = (.ok .undef, []) :=
  ⟨by decide, rfl,
    generate_nonpositive_maxRetries _ _ _ _ _ _ 0 (by decide) rfl⟩

/-- C3: with the default `maxRetries = 3` and a non-empty schema, if the
attempt pipeline (transport, sanitize/parse, validation, custom validators)
fails on attempts 1 and 2 and succeeds on attempt 3, `generate` returns the
successful validated result and the system message sent on attempt 3 is the
final system prompt extended with the attempt-2 error text; if all three
attempts fail, the attempt-3 error is returned to the caller unchanged. -/
theorem generate_retry_behavior (cfg : GenConfig) (transport : Nat → FetchOutcome)
    (prompt : String) (schema : JsVal) (sysP : Option String)
    (cvs : List (JsVal → Bool × String)) (k : Nat)
    (hm : cfg.maxRetries = 3) (hk : objectKeysCount schema = .ok (k + 1)) :
    (∀ e0 e1 v,
      attemptOnce schema cvs (transport 0) = .error e0 →
      attemptOnce schema cvs (transport 1) = .error e1 →
      attemptOnce schema cvs (transport 2) = .ok v →
      generate cfg transport prompt schema sysP cvs =
        (.ok v,
         [(sysP.getD (baseSystemPrompt schema), createStructuredPrompt prompt schema),
          (sysP.getD (baseSystemPrompt schema) ++ "\nPrevious error: " ++ e0,
            createStructuredPrompt prompt schema),
          (sysP.getD (baseSystemPrompt schema) ++ "\nPrevious error: " ++ e1,
            createStructuredPrompt prompt schema)])) ∧
    (∀ e0 e1 e2,
      attemptOnce schema cvs (transport 0) = .error e0 →
      attemptOnce schema cvs (transport 1) = .error e1 →
      attemptOnce schema cvs (transport 2) = .error e2 →
      generate cfg transport prompt schema sysP cvs =
        (.error e2,
         [(sysP.getD (baseSystemPrompt schema), createStructuredPrompt prompt schema),
          (sysP.getD (baseSystemPrompt schema) ++ "\nPrevious error: " ++ e0,
            createStructuredPrompt prompt schema),
          (sysP.getD (baseSystemPrompt schema) ++ "\nPrevious error: " ++ e1,
            createStructuredPrompt prompt schema)])) := by
  have hunf : generate cfg transport prompt schema sysP cvs =
      generateLoop schema cvs transport (sysP.getD (baseSystemPrompt schema))
        (createStructuredPrompt prompt schema) 0 3 none := by
    unfold generate
    rw [hk, hm]
    rfl
  constructor
  · intro e0 e1 v h0 h1 h2
    rw [hunf]
    rw [show (3 : Nat) = 2 + 1 from rfl, generateLoop_step]
    simp only [h0]
    rw [if_neg (by omega)]
    rw [show (2 : Nat) = 1 + 1 from rfl, generateLoop_step]
    simp only [h1]
    rw [if_neg (by omega)]
    rw [show (1 : Nat) = 0 + 1 from rfl, generateLoop_step]
    simp only [h2]
    simp [strAppend_empty, strAppend_assoc]
  · intro e0 e1 e2 h0 h1 h2
    rw [hunf]
    rw [show (3 : Nat) = 2 + 1 from rfl, generateLoop_step]
    simp only [h0]
    rw [if_neg (by omega)]
    rw [show (2 : Nat) = 1 + 1 from rfl, generateLoop_step]
    simp only [h1]
    rw [if_neg (by omega)]
    rw [show (1 : Nat) = 0 + 1 from rfl, generateLoop_step]
    simp only [h2]
    simp [strAppend_empty, strAppend_assoc]

theorem generate_retry_behavior_witness :
    generate { apiKey := "k" }
      (fun i => if i = 0 then .httpFail "boom0" else
                if i = 1 then .httpFail "boom1" else
                .content "\x7b\"name\":\"John\"\x7d")
      "p" (.obj (.cons "name" (.str "type:string") .nil)) (some "sys") [] =
      (.ok (.obj (.cons "name" (.str "John") .nil)),
       [("sys", createStructuredPrompt "p" (.obj (.cons "name" (.str "type:string") .nil))),
        ("sys\nPrevious error: OpenRouter API error: boom0",
          createStructuredPrompt "p" (.obj (.cons "name" (.str "type:string") .nil))),
        ("sys\nPrevious error: OpenRouter API error: boom1",
          createStructuredPrompt "p" (.obj (.cons "name" (.str "type:string") .nil)))]) ∧
    generate { apiKey := "k" } (fun _ => .httpFail "down") "p"
      (.obj (.cons "name" (.str "type:string") .nil)) (some "sys") [] =
      (.error "OpenRouter API error: down",
       [("sys", createStructuredPrompt "p" (.obj (.cons "name" (.str "type:string") .nil))),
        ("sys\nPrevious error: OpenRouter API error: down",
          createStructuredPrompt "p" (.obj (.cons "name" (.str "type:string") .nil))),
        ("sys\nPrevious error: OpenRouter API error: down",
          createStructuredPrompt "p" (.obj (.cons "name" (.str "type:string") .nil)))]) :=
  ⟨(generate_retry_behavior { apiKey := "k" }
      (fun i => if i = 0 then .httpFail "boom0" else
                if i = 1 then .httpFail "boom1" else
                .content "\x7b\"name\":\"John\"\x7d")
      "p" (.obj (.cons "name" (.str "type:string") .nil)) (some "sys") [] 0 rfl rfl).1
      "OpenRouter API error: boom0" "OpenRouter API error: boom1" _ rfl rfl rfl,
   (generate_retry_behavior { apiKey := "k" } (fun _ => .httpFail "down") "p"
      (.obj (.cons "name" (.str "type:string") .nil)) (some "sys") [] 0 rfl rfl).2
      "OpenRouter API error: down" "OpenRouter API error: down" "OpenRouter API error: down"
      rfl rfl rfl⟩

end JsonGen

namespace JsonGen

/-! ## Size bookkeeping and fuel irrelevance for the validator -/
theorem jsSize_pos (v : JsVal) : 1 ≤ jsSize v := by
  cases v <;> (simp only [jsSize]; omega)

theorem headItem_size_lt (ss : JsItems) : jsSize (headItem ss) < jsSize (.arr ss) := by
  cases ss with
  | nil => simp only [headItem, jsSize, itemsSize]; omega
  | cons x xs =>
      simp only [headItem, jsSize, itemsSize]
      omega

theorem fieldVal_size_lt : ∀ (fs : JsFields) (kv : String × JsVal),
    kv ∈ fs.toList → jsSize kv.2 < jsSize (.obj fs)
  | .nil, kv, h => by simp [JsFields.toList] at h
  | .cons k v rest, kv, h => by
      simp only [JsFields.toList, List.mem_cons] at h
      rcases h with rfl | h
      · simp only [jsSize, fieldsSize]; omega
      · have := fieldVal_size_lt rest kv h
        simp only [jsSize, fieldsSize] at this ⊢
        omega

theorem exceptMapItems_congr {F G : JsVal → Except String JsVal}
    (h : ∀ d, F d = G d) : ∀ ds : JsItems, exceptMapItems F ds = exceptMapItems G ds
  | .nil => rfl
  | .cons x xs => by
      simp only [exceptMapItems]
      rw [h x, exceptMapItems_congr h xs]

theorem validateFieldsGo_congr {F G : JsVal → JsVal → Except String JsVal} (data : JsVal) :
    ∀ fs : JsFields, (∀ kv ∈ fs.toList, ∀ dv, F dv kv.2 = G dv kv.2) →
      validateFieldsGo F data fs = validateFieldsGo G data fs
  | .nil, _ => rfl
  | .cons k sv rest, h => by
      have hhd : ∀ dv, F dv sv = G dv sv := fun dv =>
        h (k, sv) (by simp [JsFields.toList]) dv
      have htl := validateFieldsGo_congr data rest
        (fun kv hkv dv => h kv (by simp [JsFields.toList, hkv]) dv)
      cases hp : propLookup data k with
      | none => simp [validateFieldsGo, hp]
      | some dv => simp [validateFieldsGo, hp, hhd dv, htl]

theorem validateSchemaF_mono : ∀ {f g : Nat} (data schema : JsVal),
    jsSize schema ≤ f → jsSize schema ≤ g →
    validateSchemaF f data schema = validateSchemaF g data schema := by
  intro f
  induction f with
  | zero =>
      intro g data schema hf _
      have := jsSize_pos schema
      omega
  | succ f ih =>
      intro g data schema hf hg
      cases g with
      | zero => have := jsSize_pos schema; omega
      | succ g =>
          cases schema with
          | str s => rfl
          | num n => rfl
          | bool b => rfl
          | null => rfl
          | undef => rfl
          | arr ss =>
              have hsz := headItem_size_lt ss
              have hcong := exceptMapItems_congr
                (F := fun d => validateSchemaF f d (headItem ss))
                (G := fun d => validateSchemaF g d (headItem ss))
                (fun d => ih d (headItem ss) (by omega) (by omega))
              cases data with
              | arr ds =>
                  show (exceptMapItems (fun d => validateSchemaF f d (headItem ss)) ds).map JsVal.arr =
                    (exceptMapItems (fun d => validateSchemaF g d (headItem ss)) ds).map JsVal.arr
                  rw [hcong ds]
              | str s => rfl
              | num n => rfl
              | bool b => rfl
              | null => rfl
              | undef => rfl
              | obj fs2 => rfl
          | obj fs =>
              have hcong := validateFieldsGo_congr (F := validateSchemaF f)
                (G := validateSchemaF g) data fs
                (fun kv hkv dv => by
                  have hlt := fieldVal_size_lt fs kv hkv
                  exact ih dv kv.2 (by omega) (by omega))
              cases data with
              | arr ds =>
                  show (validateFieldsGo (validateSchemaF f) (.arr ds) fs).map
                      (fun ps => JsVal.obj (objFromPairs ps)) =
                    (validateFieldsGo (validateSchemaF g) (.arr ds) fs).map
                      (fun ps => JsVal.obj (objFromPairs ps))
                  rw [hcong]
              | obj ds =>
                  show (validateFieldsGo (validateSchemaF f) (.obj ds) fs).map
                      (fun ps => JsVal.obj (objFromPairs ps)) =
                    (validateFieldsGo (validateSchemaF g) (.obj ds) fs).map
                      (fun ps => JsVal.obj (objFromPairs ps))
                  rw [hcong]
              | str s => rfl
              | num n => rfl
              | bool b => rfl
              | null => rfl
              | undef => rfl

theorem validateSchema_eq_fuel {f : Nat} (data schema : JsVal) (hf : jsSize schema ≤ f) :
    validateSchemaF f data schema = validateSchema data schema :=
  validateSchemaF_mono data schema hf le_rfl

/-- Unfolding `_validateSchema` at an object schema with object data, with
the recursive calls re-expressed through the wrapper. -/
theorem validateSchema_obj_obj (ds : JsFields) (fs : JsFields) :
    validateSchema (.obj ds) (.obj fs) =
      (validateFieldsGo (fun dv sv => validateSchema dv sv) (.obj ds) fs).map
        (fun ps => .obj (objFromPairs ps)) := by
  show validateSchemaF (jsSize (.obj fs)) (.obj ds) (.obj fs) = _
  have hsz : jsSize (JsVal.obj fs) = (1 + fieldsSize fs) + 1 := by
    simp only [jsSize]; omega
  rw [hsz]
  show (validateFieldsGo (validateSchemaF (1 + fieldsSize fs)) (.obj ds) fs).map
      (fun ps => JsVal.obj (objFromPairs ps)) = _
  have hcong := validateFieldsGo_congr (F := validateSchemaF (1 + fieldsSize fs))
    (G := fun dv sv => validateSchema dv sv) (JsVal.obj ds) fs
    (fun kv hkv dv => by
      have hlt := fieldVal_size_lt fs kv hkv
      have hszkv : jsSize kv.2 ≤ 1 + fieldsSize fs := by
        simp only [jsSize] at hlt; omega
      exact validateSchemaF_mono dv kv.2 hszkv le_rfl)
  rw [hcong]

/-- As `validateSchema_obj_obj`, for array data (`typeof [] === 'object'`). -/
theorem validateSchema_obj_arr (ds : JsItems) (fs : JsFields) :
    validateSchema (.arr ds) (.obj fs) =
      (validateFieldsGo (fun dv sv => validateSchema dv sv) (.arr ds) fs).map
        (fun ps => .obj (objFromPairs ps)) := by
  show validateSchemaF (jsSize (.obj fs)) (.arr ds) (.obj fs) = _
  have hsz : jsSize (JsVal.obj fs) = (1 + fieldsSize fs) + 1 := by
    simp only [jsSize]; omega
  rw [hsz]
  show (validateFieldsGo (validateSchemaF (1 + fieldsSize fs)) (.arr ds) fs).map
      (fun ps => JsVal.obj (objFromPairs ps)) = _
  have hcong := validateFieldsGo_congr (F := validateSchemaF (1 + fieldsSize fs))
    (G := fun dv sv => validateSchema dv sv) (JsVal.arr ds) fs
    (fun kv hkv dv => by
      have hlt := fieldVal_size_lt fs kv hkv
      have hszkv : jsSize kv.2 ≤ 1 + fieldsSize fs := by
        simp only [jsSize] at hlt; omega
      exact validateSchemaF_mono dv kv.2 hszkv le_rfl)
  rw [hcong]

/-- Object schemas reject non-object data. -/
theorem validateSchema_obj_other (data : JsVal) (fs : JsFields)
    (h : ∀ ds, data ≠ .obj ds) (h2 : ∀ xs, data ≠ .arr xs) :
    validateSchema data (.obj fs) = .error "Expected an object" := by
  show validateSchemaF (jsSize (.obj fs)) data (.obj fs) = _
  have hsz : jsSize (JsVal.obj fs) = (1 + fieldsSize fs) + 1 := by
    simp only [jsSize]; omega
  rw [hsz]
  cases data with
  | arr xs => exact absurd rfl (h2 xs)
  | obj ds => exact absurd rfl (h ds)
  | str s => rfl
  | num n => rfl
  | bool b => rfl
  | null => rfl
  | undef => rfl

/-- Unfolding `_validateSchema` at an array schema with array data. -/
theorem validateSchema_arr_arr (ds : JsItems) (ss : JsItems) :
    validateSchema (.arr ds) (.arr ss) =
      (exceptMapItems (fun d => validateSchema d (headItem ss)) ds).map JsVal.arr := by
  show validateSchemaF (jsSize (.arr ss)) (.arr ds) (.arr ss) = _
  have hsz : jsSize (JsVal.arr ss) = (1 + itemsSize ss) + 1 := by
    simp only [jsSize]; omega
  rw [hsz]
  show (exceptMapItems (fun d => validateSchemaF (1 + itemsSize ss) d (headItem ss)) ds).map JsVal.arr = _
  have hlt := headItem_size_lt ss
  have hcong := exceptMapItems_congr
    (F := fun d => validateSchemaF (1 + itemsSize ss) d (headItem ss))
    (G := fun d => validateSchema d (headItem ss))
    (fun d => validateSchemaF_mono d (headItem ss)
      (by simp only [jsSize] at hlt ⊢; omega) le_rfl)
  rw [hcong ds]

/-- Array schemas reject non-array data. -/
theorem validateSchema_arr_other (data : JsVal) (ss : JsItems)
    (h : ∀ xs, data ≠ .arr xs) :
    validateSchema data (.arr ss) = .error "Expected an array" := by
  show validateSchemaF (jsSize (.arr ss)) data (.arr ss) = _
  have hsz : jsSize (JsVal.arr ss) = (1 + itemsSize ss) + 1 := by
    simp only [jsSize]; omega
  rw [hsz]
  cases data with
  | arr xs => exact absurd rfl (h xs)
  | obj ds => rfl
  | str s => rfl
  | num n => rfl
  | bool b => rfl
  | null => rfl
  | undef => rfl

/-- Unfolding `_validateSchema` at a string schema node. -/
theorem validateSchema_str (data : JsVal) (s : String) :
    validateSchema data (.str s) =
      (if "type:".data.isPrefixOf s.data then validateType data s "field" else .ok data) := rfl

theorem validateSchema_num (data : JsVal) (n : JsNum) :
    validateSchema data (.num n) = .ok data := rfl

theorem validateSchema_bool (data : JsVal) (b : Bool) :
    validateSchema data (.bool b) = .ok data := rfl

theorem validateSchema_null (data : JsVal) : validateSchema data .null = .ok data := rfl

theorem validateSchema_undef (data : JsVal) : validateSchema data .undef = .ok data := rfl

end JsonGen

namespace JsonGen

/-! ## Field-list lemmas for the object validator -/

def fieldsAppend : JsFields → JsFields → JsFields
  | .nil, b => b
  | .cons k v rest, b => .cons k v (fieldsAppend rest b)

theorem fieldsAppend_nil : ∀ a : JsFields, fieldsAppend a .nil = a
  | .nil => rfl
  | .cons k v rest => by simp only [fieldsAppend, fieldsAppend_nil rest]

theorem fieldsAppend_keys : ∀ a b : JsFields,
    (fieldsAppend a b).keys = a.keys ++ b.keys
  | .nil, b => rfl
  | .cons k v rest, b => by
      simp only [fieldsAppend, JsFields.keys, fieldsAppend_keys rest b, List.cons_append]

theorem fieldsAppend_toList : ∀ a b : JsFields,
    (fieldsAppend a b).toList = a.toList ++ b.toList
  | .nil, b => rfl
  | .cons k v rest, b => by
      simp only [fieldsAppend, JsFields.toList, fieldsAppend_toList rest b, List.cons_append]

theorem fieldsAppend_assoc : ∀ (x y z : JsFields),
    fieldsAppend (fieldsAppend x y) z = fieldsAppend x (fieldsAppend y z)
  | .nil, _, _ => rfl
  | .cons k v rest, y, z => by simp [fieldsAppend, fieldsAppend_assoc rest y z]

theorem lookupField_append : ∀ (a b : JsFields) (k : String),
    lookupField (fieldsAppend a b) k =
      (match lookupField a k with
       | some v => some v
       | none => lookupField b k)
  | .nil, b, k => rfl
  | .cons k' v rest, b, k => by
      by_cases h : k' = k
      · simp [fieldsAppend, lookupField, h]
      · simp [fieldsAppend, lookupField, h, lookupField_append rest b k]

theorem objInsert_not_mem : ∀ (acc : JsFields) (k : String) (v : JsVal),
    k ∉ acc.keys → objInsert acc k v = fieldsAppend acc (.cons k v .nil)
  | .nil, k, v, _ => rfl
  | .cons k' v' rest, k, v, h => by
      have hk : k' ≠ k := by
        intro hh
        exact h (by simp [JsFields.keys, hh])
      have hrest : k ∉ rest.keys := fun hh => h (by simp [JsFields.keys, hh])
      simp [objInsert, hk, fieldsAppend, objInsert_not_mem rest k v hrest]

theorem objFromPairsGo_disjoint : ∀ (ps acc : JsFields),
    ps.keys.Nodup → (∀ k ∈ ps.keys, k ∉ acc.keys) →
    objFromPairsGo acc ps = fieldsAppend acc ps
  | .nil, acc, _, _ => (fieldsAppend_nil acc).symm
  | .cons k v rest, acc, hnd, hdisj => by
      have hk : k ∉ acc.keys := hdisj k (by simp [JsFields.keys])
      have hnd' : rest.keys.Nodup := by
        simp only [JsFields.keys, List.nodup_cons] at hnd
        exact hnd.2
      have hknotrest : k ∉ rest.keys := by
        simp only [JsFields.keys, List.nodup_cons] at hnd
        exact hnd.1
      have hdisj' : ∀ k' ∈ rest.keys, k' ∉ (fieldsAppend acc (.cons k v .nil)).keys := by
        intro k' hk'
        rw [fieldsAppend_keys]
        intro hmem
        rcases List.mem_append.mp hmem with hmem | hmem
        · exact hdisj k' (by simp [JsFields.keys, hk']) hmem
        · simp only [JsFields.keys, List.mem_singleton] at hmem
          subst hmem
          exact hknotrest hk'
      show objFromPairsGo (objInsert acc k v) rest = _
      rw [objInsert_not_mem acc k v hk]
      rw [objFromPairsGo_disjoint rest (fieldsAppend acc (.cons k v .nil)) hnd' hdisj']
      show fieldsAppend (fieldsAppend acc (.cons k v .nil)) rest = fieldsAppend acc (.cons k v rest)
      rw [fieldsAppend_assoc]
      rfl

theorem objFromPairs_of_nodup (ps : JsFields) (hnd : ps.keys.Nodup) :
    objFromPairs ps = ps := by
  unfold objFromPairs
  rw [objFromPairsGo_disjoint ps .nil hnd (fun k _ => by simp [JsFields.keys])]
  rfl

theorem validateFieldsGo_keys {V : JsVal → JsVal → Except String JsVal} {data : JsVal} :
    ∀ (fs : JsFields) {ps : JsFields}, validateFieldsGo V data fs = .ok ps → ps.keys = fs.keys
  | .nil, ps, h => by cases h; rfl
  | .cons k sv rest, ps, h => by
      simp only [validateFieldsGo] at h
      cases hp : propLookup data k with
      | none => simp only [hp] at h; cases h
      | some dv =>
          simp only [hp] at h
          cases hv : V dv sv with
          | error m => simp only [hv] at h; cases h
          | ok v =>
              simp only [hv] at h
              cases hrest : validateFieldsGo V data rest with
              | error m => simp only [hrest] at h; cases h
              | ok vs =>
                  simp only [hrest] at h
                  cases h
                  simp only [JsFields.keys]
                  rw [validateFieldsGo_keys rest hrest]

end JsonGen

namespace JsonGen

theorem exceptMap_ok {α β : Type} (f : α → β) (x : Except String α) (b : β)
    (h : x.map f = .ok b) : ∃ a, x = .ok a ∧ b = f a := by
  cases x with
  | error m => simp [Except.map] at h
  | ok a =>
      simp [Except.map] at h
      exact ⟨a, rfl, h.symm⟩

theorem fieldsGo_fails_of_missing {V : JsVal → JsVal → Except String JsVal} {d : JsVal} :
    ∀ fs : JsFields, (∃ k ∈ fs.keys, propLookup d k = none) →
      ∃ m, validateFieldsGo V d fs = .error m
  | .nil, h => by
      obtain ⟨k, hk, _⟩ := h
      simp [JsFields.keys] at hk
  | .cons k sv rest, h => by
      cases hp : propLookup d k with
      | none =>
          exact ⟨"Missing required field: " ++ k, by simp [validateFieldsGo, hp]⟩
      | some dv =>
          obtain ⟨k', hk', hlk'⟩ := h
          simp only [JsFields.keys, List.mem_cons] at hk'
          have hk'rest : k' ∈ rest.keys := by
            rcases hk' with rfl | hk'
            · rw [hp] at hlk'; cases hlk'
            · exact hk'
          cases hv : V dv sv with
          | error m => exact ⟨m, by simp [validateFieldsGo, hp, hv]⟩
          | ok v =>
              obtain ⟨m, hm⟩ := fieldsGo_fails_of_missing (V := V) (d := d) rest
                ⟨k', hk'rest, hlk'⟩
              exact ⟨m, by simp [validateFieldsGo, hp, hv, hm]⟩

theorem fieldsGo_missing_first {V : JsVal → JsVal → Except String JsVal} {d : JsVal} :
    ∀ (pre : JsFields) (k : String) (sv : JsVal) (post : JsFields),
      (∀ kv ∈ pre.toList, ∃ dv w, propLookup d kv.1 = some dv ∧ V dv kv.2 = .ok w) →
      propLookup d k = none →
      validateFieldsGo V d (fieldsAppend pre (.cons k sv post)) =
        .error ("Missing required field: " ++ k)
  | .nil, k, sv, post, _, hp => by simp [fieldsAppend, validateFieldsGo, hp]
  | .cons k1 sv1 rest, k, sv, post, hok, hp => by
      obtain ⟨dv, w, hdv, hw⟩ := hok (k1, sv1) (by simp [JsFields.toList])
      have ih := fieldsGo_missing_first (V := V) (d := d) rest k sv post
        (fun kv hkv => hok kv (by simp [JsFields.toList, hkv])) hp
      simp [fieldsAppend, validateFieldsGo, hdv, hw, ih]

theorem fieldsGo_extra {V : JsVal → JsVal → Except String JsVal} {a : JsFields}
    {e : String} {w : JsVal} :
    ∀ fs : JsFields, e ∉ fs.keys →
      validateFieldsGo V (.obj (fieldsAppend a (.cons e w .nil))) fs =
        validateFieldsGo V (.obj a) fs
  | .nil, _ => rfl
  | .cons k sv rest, he => by
      have hke : e ≠ k := by
        intro hh
        exact he (by simp [JsFields.keys, hh])
      have herest : e ∉ rest.keys := fun hh => he (by simp [JsFields.keys, hh])
      have hlk : lookupField (fieldsAppend a (.cons e w .nil)) k = lookupField a k := by
        rw [lookupField_append]
        cases hl : lookupField a k with
        | some v => rfl
        | none => simp [lookupField, hke]
      have ih := fieldsGo_extra (V := V) (a := a) (e := e) (w := w) rest herest
      show validateFieldsGo V (.obj (fieldsAppend a (.cons e w .nil))) (.cons k sv rest) = _
      rw [validateFieldsGo]
      show (match lookupField (fieldsAppend a (.cons e w .nil)) k with
            | none => Except.error ("Missing required field: " ++ k)
            | some dv =>
              match V dv sv with
              | Except.error m => Except.error m
              | Except.ok v =>
                match validateFieldsGo V (.obj (fieldsAppend a (.cons e w .nil))) rest with
                | Except.error m => Except.error m
                | Except.ok vs => Except.ok (JsFields.cons k v vs)) = _
      rw [hlk, ih]
      rfl

/-- C4 (counterexample): with schema `{a: 'type:integer', b: 'type:string'}`
and data `{a: "abc"}`, the declared key `b` is absent from the data, yet the
failure message is the coercion error of the earlier declared key `a`, not
`Missing required field: b` — the claim ties the wrong message to this
situation. -/
theorem validateSchema_missing_message_counterexample :
    validateSchema (.obj (.cons "a" (.str "abc") .nil))
        (.obj (.cons "a" (.str "type:integer") (.cons "b" (.str "type:string") .nil))) =
      .error "Field \"field\" must be an integer" ∧
    lookupField (.cons "a" (.str "abc") .nil) "b" = none ∧
    "Field \"field\" must be an integer" ≠ "Missing required field: b" :=
  ⟨rfl, rfl, by decide⟩

/-- C4 (amended): for object data and an object schema with distinct
declared keys, (1) a successful validation returns an object whose keys are
exactly the declared keys in declaration order (extra keys are dropped);
(2) if any declared key is absent from the data, validation fails; (3) the
failure message is `Missing required field: <key>` for the first declared
key that is absent when every earlier declared key is present and coerces
successfully (an earlier key's coercion failure is reported instead); and
(4) appending an undeclared extra field to the data never changes the
result. -/
theorem validateSchema_obj_keys_amended (ds fs : JsFields) (hnd : fs.keys.Nodup) :
    (∀ r, validateSchema (.obj ds) (.obj fs) = .ok r →
        ∃ rs, r = .obj rs ∧ rs.keys = fs.keys) ∧
    ((∃ k ∈ fs.keys, lookupField ds k = none) →
        ∃ m, validateSchema (.obj ds) (.obj fs) = .error m) ∧
    (∀ pre k sv post,
        fs = fieldsAppend pre (.cons k sv post) →
        (∀ kv ∈ pre.toList, ∃ dv w, lookupField ds kv.1 = some dv ∧
            validateSchema dv kv.2 = .ok w) →
        lookupField ds k = none →
        validateSchema (.obj ds) (.obj fs) = .error ("Missing required field: " ++ k)) ∧
    (∀ e v0, e ∉ fs.keys →
        validateSchema (.obj (fieldsAppend ds (.cons e v0 .nil))) (.obj fs) =
          validateSchema (.obj ds) (.obj fs)) := by
  refine ⟨?_, ?_, ?_, ?_⟩
  · intro r h
    rw [validateSchema_obj_obj] at h
    obtain ⟨ps, hps, hr⟩ := exceptMap_ok _ _ _ h
    have hkeys := validateFieldsGo_keys fs hps
    have hndps : ps.keys.Nodup := by rw [hkeys]; exact hnd
    exact ⟨ps, by rw [hr, objFromPairs_of_nodup ps hndps], hkeys⟩
  · intro h
    obtain ⟨m, hm⟩ := fieldsGo_fails_of_missing (V := fun dv sv => validateSchema dv sv)
      (d := JsVal.obj ds) fs h
    exact ⟨m, by rw [validateSchema_obj_obj, hm]; rfl⟩
  · intro pre k sv post hfs hok hlk
    subst hfs
    rw [validateSchema_obj_obj]
    rw [fieldsGo_missing_first (V := fun dv sv => validateSchema dv sv)
      (d := JsVal.obj ds) pre k sv post hok hlk]
    rfl
  · intro e v0 he
    rw [validateSchema_obj_obj, validateSchema_obj_obj]
    rw [fieldsGo_extra fs he]

theorem validateSchema_obj_keys_amended_witness :
    ((JsFields.cons "name" (.str "type:string")
        (.cons "age" (.str "type:integer") .nil)).keys.Nodup) ∧
    (∃ rs, JsVal.obj (.cons "name" (.str "John") (.cons "age" (.num (.fin 30 0)) .nil)) =
        .obj rs ∧ rs.keys =
          (JsFields.cons "name" (.str "type:string")
            (.cons "age" (.str "type:integer") .nil)).keys) ∧
    validateSchema (.obj (.cons "name" (.str "John") .nil))
        (.obj (.cons "name" (.str "type:string") (.cons "age" (.str "type:integer") .nil))) =
      .error "Missing required field: age" :=
  ⟨by decide,
   (validateSchema_obj_keys_amended
      (.cons "name" (.str "John") (.cons "age" (.str "30") .nil))
      (.cons "name" (.str "type:string") (.cons "age" (.str "type:integer") .nil))
      (by decide)).1 _ rfl,
   (validateSchema_obj_keys_amended
      (.cons "name" (.str "John") .nil)
      (.cons "name" (.str "type:string") (.cons "age" (.str "type:integer") .nil))
      (by decide)).2.2.1 (.cons "name" (.str "type:string") .nil) "age"
      (.str "type:integer") .nil rfl
      (fun kv hkv => by
        simp only [JsFields.toList, List.mem_singleton] at hkv
        subst hkv
        exact ⟨.str "John", .str "John", rfl, rfl⟩)
      rfl⟩

end JsonGen

namespace JsonGen

/-! ## Error-message shape of the coercer (C2) -/

theorem strEq_of_data (a b : String) (h : a.data = b.data) : a = b :=
  congrArg String.mk h

/-- Splitting the fused message literal at the "must be " boundary. -/
theorem msg_split (key : String) (a b : String) (w : a = "\" must be " ++ b) :
    "Field \"" ++ key ++ a = "Field \"" ++ key ++ "\" must be " ++ b := by
  rw [w]
  simp only [strAppend_assoc]

theorem coerceBoolean_error (v : JsVal) (key em : String)
    (h : coerceBoolean v key = .error em) :
    em = "Field \"" ++ key ++ "\" must be a boolean" := by
  cases v with
  | str s =>
      simp only [coerceBoolean] at h
      by_cases hb1 : s.data.map lowerChar = "true".data
      · rw [if_pos hb1] at h; cases h
      · rw [if_neg hb1] at h
        by_cases hb2 : s.data.map lowerChar = "false".data
        · rw [if_pos hb2] at h; cases h
        · rw [if_neg hb2] at h
          injection h with hEm
          exact hEm.symm
  | num n => simp only [coerceBoolean] at h; injection h with hEm; exact hEm.symm
  | bool b => simp only [coerceBoolean] at h; cases h
  | null => simp only [coerceBoolean] at h; injection h with hEm; exact hEm.symm
  | undef => simp only [coerceBoolean] at h; injection h with hEm; exact hEm.symm
  | arr xs => simp only [coerceBoolean] at h; injection h with hEm; exact hEm.symm
  | obj fs => simp only [coerceBoolean] at h; injection h with hEm; exact hEm.symm

theorem coerceParsedArray_error (r : Except String JsVal) (key em : String)
    (h : coerceParsedArray r key = .error em) :
    em = "Field \"" ++ key ++ "\" must be an array" := by
  cases r with
  | ok w =>
      cases w with
      | arr ys => simp only [coerceParsedArray] at h; cases h
      | str s => simp only [coerceParsedArray] at h; injection h with hEm; exact hEm.symm
      | num n => simp only [coerceParsedArray] at h; injection h with hEm; exact hEm.symm
      | bool b => simp only [coerceParsedArray] at h; injection h with hEm; exact hEm.symm
      | null => simp only [coerceParsedArray] at h; injection h with hEm; exact hEm.symm
      | undef => simp only [coerceParsedArray] at h; injection h with hEm; exact hEm.symm
      | obj fs => simp only [coerceParsedArray] at h; injection h with hEm; exact hEm.symm
  | error e => simp only [coerceParsedArray] at h; injection h with hEm; exact hEm.symm

theorem coerceArray_error (v : JsVal) (key em : String)
    (h : coerceArray v key = .error em) :
    em = "Field \"" ++ key ++ "\" must be an array" := by
  cases v with
  | arr xs => simp only [coerceArray] at h; cases h
  | str s => simp only [coerceArray] at h; exact coerceParsedArray_error _ key em h
  | num n => simp only [coerceArray] at h; exact coerceParsedArray_error _ key em h
  | bool b => simp only [coerceArray] at h; exact coerceParsedArray_error _ key em h
  | null => simp only [coerceArray] at h; exact coerceParsedArray_error _ key em h
  | undef => simp only [coerceArray] at h; exact coerceParsedArray_error _ key em h
  | obj fs => simp only [coerceArray] at h; exact coerceParsedArray_error _ key em h

/-- Every error `_validateType` can produce names the `key` argument it was
given: the message is `Field "<key>" must be <kind description>`. -/
theorem coerceByKind_error_shape (ts : List Char) (v : JsVal) (key em : String)
    (h : coerceByKind ts v key = .error em) :
    ∃ d, em = "Field \"" ++ key ++ "\" must be " ++ d := by
  unfold coerceByKind at h
  by_cases h1 : ts.map lowerChar = "string".data ∨ ts.map lowerChar = "str".data
  · rw [if_pos h1] at h; cases h
  rw [if_neg h1] at h
  by_cases h2 : ts.map lowerChar = "number".data ∨ ts.map lowerChar = "float".data
  · rw [if_pos h2] at h
    cases hp : jsParseFloat (jsToString v) with
    | some n => simp only [hp] at h; cases h
    | none =>
        simp only [hp] at h
        injection h with hEm
        exact ⟨"a number", by rw [← hEm]; exact msg_split key _ "a number" rfl⟩
  rw [if_neg h2] at h
  by_cases h3 : ts.map lowerChar = "integer".data ∨ ts.map lowerChar = "int".data
  · rw [if_pos h3] at h
    cases hp : jsParseInt (jsToString v) with
    | some m => simp only [hp] at h; cases h
    | none =>
        simp only [hp] at h
        injection h with hEm
        exact ⟨"an integer", by rw [← hEm]; exact msg_split key _ "an integer" rfl⟩
  rw [if_neg h3] at h
  by_cases h4 : ts.map lowerChar = "boolean".data ∨ ts.map lowerChar = "bool".data
  · rw [if_pos h4] at h
    refine ⟨"a boolean", ?_⟩
    rw [coerceBoolean_error v key em h]
    exact msg_split key _ "a boolean" rfl
  rw [if_neg h4] at h
  by_cases h5 : ts.map lowerChar = "array".data ∨ ts.map lowerChar = "list".data
  · rw [if_pos h5] at h
    refine ⟨"an array", ?_⟩
    rw [coerceArray_error v key em h]
    exact msg_split key _ "an array" rfl
  rw [if_neg h5] at h
  by_cases h6 : "enum[".data.isPrefixOf ts = true
  · rw [if_pos h6] at h
    by_cases hm : enumCheck v ts = true
    · rw [if_pos hm] at h; cases h
    · rw [if_neg hm] at h
      injection h with hEm
      refine ⟨"one of: " ++ String.intercalate ", " ((enumOptions ts).map String.mk), ?_⟩
      rw [← hEm, ← strAppend_assoc]
      exact congrArg (fun t => t ++ String.intercalate ", " ((enumOptions ts).map String.mk))
        (msg_split key "\" must be one of: " "one of: " rfl)
  · rw [if_neg h6] at h; cases h

/-- C2 (counterexample): reached through `_validateSchema`, a failing leaf
coercion does NOT carry the actual field name. The schema declares the key
"age", the coercion of its value fails, yet the message names the literal
string "field" (the hardcoded third argument at the `_validateType` call
site), not "age". -/
theorem validate_field_name_counterexample :
    validateSchema (.obj (.cons "age" (.str "abc") .nil))
        (.obj (.cons "age" (.str "type:integer") .nil)) =
      .error "Field \"field\" must be an integer" ∧
    "Field \"field\" must be an integer" ≠ "Field \"age\" must be an integer" :=
  ⟨rfl, by decide⟩

/-- C2 (amended): a direct call to `_validateType` does raise a message
naming exactly the `key` argument it was given — every error it produces
reads `Field "<key>" must be <kind>` — but `_validateSchema` never passes
the schema key down: at a string-annotation leaf it always calls
`_validateType(data, s, 'field')` with the literal name 'field'. -/
theorem validateType_field_name_amended :
    (∀ (v : JsVal) (ann key em : String),
        validateType v ann key = .error em →
        ∃ d, em = "Field \"" ++ key ++ "\" must be " ++ d) ∧
    (∀ (data : JsVal) (s : String),
        validateSchema data (.str s) =
          (if "type:".data.isPrefixOf s.data then validateType data s "field"
           else .ok data)) := by
  constructor
  · intro v ann key em h
    unfold validateType at h
    by_cases hp : "type:".data.isPrefixOf ann.data = true
    · rw [if_pos hp] at h
      exact coerceByKind_error_shape _ v key em h
    · rw [if_neg hp] at h; cases h
  · intro data s
    exact validateSchema_str data s

theorem validateType_field_name_amended_witness :
    validateType (.str "abc") "type:integer" "age" =
        .error "Field \"age\" must be an integer" ∧
    (∃ d, "Field \"age\" must be an integer" =
        "Field \"" ++ "age" ++ "\" must be " ++ d) ∧
    validateSchema (.str "abc") (.str "type:integer") =
      (if "type:".data.isPrefixOf ("type:integer").data
       then validateType (.str "abc") "type:integer" "field" else .ok (.str "abc")) :=
  ⟨rfl,
   validateType_field_name_amended.1 (.str "abc") "type:integer" "age"
     "Field \"age\" must be an integer" rfl,
   validateType_field_name_amended.2 (.str "abc") "type:integer"⟩

end JsonGen

namespace JsonGen

/-! ## C5: the sanitizer -/

theorem dropWhile_none {p : Char → Bool} {xs : List Char}
    (h : ∀ x ∈ xs, p x = false) : xs.dropWhile p = xs := by
  induction xs with
  | nil => rfl
  | cons x rest ih =>
      rw [List.dropWhile_cons, h x (List.mem_cons_self x rest)]
      simp [ih fun y hy => h y (List.mem_cons_of_mem x hy)]

theorem fenceLen_no_backtick (c : Char) (rest : List Char) (hc : c ≠ backtick) :
    fenceLen (c :: rest) = none := by
  have hpre : List.isPrefixOf "```".data (c :: rest) = false := by
    rw [show ("```".data) = backtick :: backtick :: [backtick] from by decide]
    show (backtick == c && List.isPrefixOf [backtick, backtick] rest) = false
    rw [beq_eq_false_iff_ne.mpr (Ne.symm hc), Bool.false_and]
  unfold fenceLen
  rw [hpre]
  simp

theorem stripFencesF_no_backtick (f : Nat) (cs : List Char)
    (h : ∀ c ∈ cs, c ≠ backtick) : stripFencesF f cs = cs := by
  induction f generalizing cs with
  | zero => rfl
  | succ f ih =>
      cases cs with
      | nil => rfl
      | cons c rest =>
          show (match fenceLen (c :: rest) with
                | some n => stripFencesF f ((c :: rest).drop n)
                | none => c :: stripFencesF f rest) = c :: rest
          rw [fenceLen_no_backtick c rest (h c (List.mem_cons_self c rest))]
          exact congrArg (List.cons c)
            (ih rest fun y hy => h y (List.mem_cons_of_mem c hy))

theorem dropWhileEnd_no_backtick (cs : List Char) (h : ∀ c ∈ cs, c ≠ backtick) :
    dropWhileEnd (fun c => c = backtick) cs = cs := by
  have hrev : ∀ x ∈ cs.reverse, (fun c => decide (c = backtick)) x = false := by
    intro x hx
    simp only [decide_eq_false_iff_not]
    exact h x (List.mem_reverse.mp hx)
  unfold dropWhileEnd
  rw [dropWhile_none hrev, List.reverse_reverse]

/-- C5 (counterexample): the sanitizer is NOT idempotent. On the input
backtick-space-space the first pass strips nothing but the trailing spaces,
exposing a trailing backtick (the backtick strip runs BEFORE the trim), so
a second pass still changes the string. -/
theorem cleanJsonString_not_idempotent :
    cleanJsonString "`  " = "`" ∧ cleanJsonString "`" = "" ∧ ("`" : String) ≠ "" :=
  ⟨rfl, rfl, by decide⟩

/-- C5 (amended): the sanitizer does remove a leading (indeed, any)
code-fence opener with optional `json` tag, trailing backticks, and
surrounding whitespace — the canonical fenced input cleans to its payload —
and it is a no-op on clean text in the sense of backtick-free, trimmed
strings. It is not idempotent on arbitrary inputs (see the counterexample):
its own output can end in a backtick the first pass only uncovered. -/
theorem cleanJsonString_amended :
    cleanJsonString "```json\n\x7b\"a\":1\x7d\n```" = "\x7b\"a\":1\x7d" ∧
    (∀ s : String, (∀ c ∈ s.data, c ≠ backtick) → trimChars s.data = s.data →
      cleanJsonString s = s) := by
  constructor
  · rfl
  · intro s hb ht
    unfold cleanJsonString
    rw [stripFencesF_no_backtick _ _ hb, dropWhileEnd_no_backtick s.data hb, ht]

theorem cleanJsonString_amended_witness : cleanJsonString "abc" = "abc" :=
  cleanJsonString_amended.2 "abc" (by decide) rfl

end JsonGen

namespace JsonGen

/-! ## C6: enum coercion -/

theorem isPrefixOf_append_self (l t : List Char) : l.isPrefixOf (l ++ t) = true := by
  induction l with
  | nil => cases t <;> rfl
  | cons c cs ih =>
      show (c == c && cs.isPrefixOf (cs ++ t)) = true
      simp [ih]

theorem takeUntilSep_all (sep : List Char) (cs : List Char)
    (h : hasSeq sep cs = false) : takeUntilSep sep cs = cs := by
  induction cs with
  | nil => rfl
  | cons c rest ih =>
      unfold hasSeq at h
      rw [Bool.or_eq_false_iff] at h
      unfold takeUntilSep
      rw [if_neg (by simp [h.1])]
      exact congrArg (List.cons c) (ih h.2)

theorem dropWhileEnd_append_single (p : Char → Bool) (l : List Char) (a : Char)
    (hp : p a = false) : dropWhileEnd p (l ++ [a]) = l ++ [a] := by
  unfold dropWhileEnd
  rw [List.reverse_append]
  show ((a :: l.reverse).dropWhile p).reverse = l ++ [a]
  rw [dropWhile_cons_neg _ hp, List.reverse_cons, List.reverse_reverse]

theorem trim_enum (opts : List Char) :
    trimChars ("enum[".data ++ opts ++ "]".data) = "enum[".data ++ opts ++ "]".data := by
  unfold trimChars
  have hfront : ("enum[".data ++ opts ++ "]".data).dropWhile isJsWs =
      "enum[".data ++ opts ++ "]".data := by
    show ('e' :: ("num[".data ++ opts ++ "]".data)).dropWhile isJsWs = _
    exact dropWhile_cons_neg _ (by decide)
  rw [hfront]
  rw [show ("enum[".data ++ opts ++ "]".data) = ("enum[".data ++ opts) ++ [']'] from
    by rw [List.append_assoc]]
  exact dropWhileEnd_append_single isJsWs ("enum[".data ++ opts) ']' (by decide)

theorem enumOptions_enum (opts : List Char) :
    enumOptions ("enum[".data ++ opts ++ "]".data) = (splitOnChar ',' opts).map trimChars := by
  unfold enumOptions
  show ((splitOnChar ',' ((opts ++ "]".data).dropLast)).map trimChars) = _
  rw [show (opts ++ "]".data).dropLast = opts from by simp]

theorem enumCheck_eq (v : JsVal) (ts : List Char) :
    enumCheck v ts = (match v with
      | .str s => (enumOptions ts).contains s.data
      | _ => false) := rfl

/-- C6: a `type:enum[a,b,...]` annotation (whose option text does not itself
contain the separator `type:`) accepts exactly the string values equal — as
written, case-sensitively — to one of the comma-separated, whitespace-trimmed
options, returning the value unchanged; every other value is rejected with a
message listing all of the allowed options. -/
theorem validateType_enum (opts : List Char) (v : JsVal) (key : String)
    (h : hasSeq "type:".data ("enum[".data ++ opts ++ "]".data) = false) :
    validateType v (String.mk ("type:".data ++ "enum[".data ++ opts ++ "]".data)) key =
      (if (match v with
           | .str s => ((splitOnChar ',' opts).map trimChars).contains s.data
           | _ => false)
       then .ok v
       else .error ("Field \"" ++ key ++ "\" must be one of: " ++
            String.intercalate ", "
              (((splitOnChar ',' opts).map trimChars).map String.mk))) := by
  have hhead : ((("enum[".data ++ opts ++ "]".data)).map lowerChar).head? = some 'e' := rfl
  have h1 : ¬(("enum[".data ++ opts ++ "]".data).map lowerChar = "string".data ∨
      ("enum[".data ++ opts ++ "]".data).map lowerChar = "str".data) := by
    rintro (hx | hx) <;> exact absurd (hhead.symm.trans (congrArg List.head? hx)) (by decide)
  have h2 : ¬(("enum[".data ++ opts ++ "]".data).map lowerChar = "number".data ∨
      ("enum[".data ++ opts ++ "]".data).map lowerChar = "float".data) := by
    rintro (hx | hx) <;> exact absurd (hhead.symm.trans (congrArg List.head? hx)) (by decide)
  have h3 : ¬(("enum[".data ++ opts ++ "]".data).map lowerChar = "integer".data ∨
      ("enum[".data ++ opts ++ "]".data).map lowerChar = "int".data) := by
    rintro (hx | hx) <;> exact absurd (hhead.symm.trans (congrArg List.head? hx)) (by decide)
  have h4 : ¬(("enum[".data ++ opts ++ "]".data).map lowerChar = "boolean".data ∨
      ("enum[".data ++ opts ++ "]".data).map lowerChar = "bool".data) := by
    rintro (hx | hx) <;> exact absurd (hhead.symm.trans (congrArg List.head? hx)) (by decide)
  have h5 : ¬(("enum[".data ++ opts ++ "]".data).map lowerChar = "array".data ∨
      ("enum[".data ++ opts ++ "]".data).map lowerChar = "list".data) := by
    rintro (hx | hx) <;> exact absurd (hhead.symm.trans (congrArg List.head? hx)) (by decide)
  have h6 : "enum[".data.isPrefixOf ("enum[".data ++ opts ++ "]".data) = true :=
    isPrefixOf_append_self "enum[".data (opts ++ "]".data)
  have hpre : "type:".data.isPrefixOf
      (String.mk ("type:".data ++ "enum[".data ++ opts ++ "]".data)).data = true :=
    isPrefixOf_append_self "type:".data ("enum[".data ++ opts ++ "]".data)
  have hts : typeStrOf (String.mk ("type:".data ++ "enum[".data ++ opts ++ "]".data)) =
      "enum[".data ++ opts ++ "]".data := by
    unfold typeStrOf
    show trimChars (takeUntilSep "type:".data ("enum[".data ++ opts ++ "]".data)) = _
    rw [takeUntilSep_all "type:".data _ h]
    exact trim_enum opts
  unfold validateType
  rw [if_pos hpre, hts]
  unfold coerceByKind
  rw [if_neg h1, if_neg h2, if_neg h3, if_neg h4, if_neg h5, if_pos h6]
  rw [enumCheck_eq, enumOptions_enum]

theorem validateType_enum_witness :
    validateType (.str "red") "type:enum[red,green,blue]" "color" = .ok (.str "red") ∧
    validateType (.str "purple") "type:enum[red,green,blue]" "color" =
      .error "Field \"color\" must be one of: red, green, blue" :=
  ⟨(validateType_enum ("red,green,blue".data) (.str "red") "color" (by decide)).trans rfl,
   (validateType_enum ("red,green,blue".data) (.str "purple") "color" (by decide)).trans rfl⟩

end JsonGen

namespace JsonGen

/-! ## C9: numeric-prefix coercion -/

theorem jsParseFloat_digit_head (c : Char) (rest : List Char) (hc : c.isDigit = true) :
    ∃ n, jsParseFloatChars (c :: rest) = some n := by
  unfold jsParseFloatChars
  rw [dropWhile_cons_neg _ (isDigit_not_ws hc),
    readSign_other _ (isDigit_ne hc).1 (isDigit_ne hc).2.1]
  unfold floatBody
  have htw : (c :: rest).takeWhile Char.isDigit = c :: rest.takeWhile Char.isDigit := by
    simp [List.takeWhile_cons, hc]
  rw [if_neg (by simp [infPrefix_false rest (isDigit_ne hc).2.2.1])]
  rw [if_neg (by rintro ⟨h1, h2⟩; rw [htw] at h1; cases h1)]
  exact ⟨_, rfl⟩

theorem jsParseInt_digit_head (c : Char) (rest : List Char) (hc : c.isDigit = true)
    (hx : intHexMode (c :: rest) = false) :
    ∃ m, jsParseIntChars (c :: rest) = some m := by
  unfold jsParseIntChars
  rw [dropWhile_cons_neg _ (isDigit_not_ws hc),
    readSign_other _ (isDigit_ne hc).1 (isDigit_ne hc).2.1]
  unfold intBody
  have htw : (c :: rest).takeWhile Char.isDigit = c :: rest.takeWhile Char.isDigit := by
    simp [List.takeWhile_cons, hc]
  rw [if_neg (by simp [hx])]
  rw [if_neg (by intro h1; rw [htw] at h1; cases h1)]
  exact ⟨_, rfl⟩

/-- C9 (counterexample): "0xzz" begins with the numeric prefix "0" — its
longest leading digit run is nonempty — yet integer coercion fails:
`parseInt` sees the `0x` prefix, switches to base 16, finds no hex digits
and yields NaN. So a leading numeric prefix does not guarantee success. -/
theorem validateType_numeric_prefix_counterexample :
    validateType (.str "0xzz") "type:integer" "f" =
      .error "Field \"f\" must be an integer" ∧
    "0xzz".data.takeWhile Char.isDigit = ['0'] :=
  ⟨rfl, rfl⟩

/-- C9 (amended): strings with a numeric prefix followed by junk coerce to
the parsed prefix — "30abc" and "3.5xyz" as claimed, where the integer kind
truncates "3.5xyz" to 3 — and a leading digit guarantees success for the
number/float kind always, and for the integer/int kind whenever the string
does not start with the hex marker `0x`/`0X`; with such a marker and no
following hex digit ("0xzz"), integer coercion fails despite the leading
digit (while "0x1A" parses as hex 26). -/
theorem validateType_numeric_prefix_amended :
    validateType (.str "30abc") "type:integer" "f" = .ok (.num (.fin 30 0)) ∧
    validateType (.str "3.5xyz") "type:number" "f" = .ok (.num (.fin 35 1)) ∧
    validateType (.str "30abc") "type:number" "f" = .ok (.num (.fin 30 0)) ∧
    validateType (.str "3.5xyz") "type:integer" "f" = .ok (.num (.fin 3 0)) ∧
    validateType (.str "0x1A") "type:integer" "f" = .ok (.num (.fin 26 0)) ∧
    (∀ (key : String) (c : Char) (rest : List Char), c.isDigit = true →
      ∃ n, validateType (.str (String.mk (c :: rest))) "type:number" key =
        .ok (.num n)) ∧
    (∀ (key : String) (c : Char) (rest : List Char), c.isDigit = true →
      intHexMode (c :: rest) = false →
      ∃ m, validateType (.str (String.mk (c :: rest))) "type:integer" key =
        .ok (.num (.fin m 0))) := by
  refine ⟨rfl, rfl, rfl, rfl, rfl, ?_, ?_⟩
  · intro key c rest hc
    obtain ⟨n, hn⟩ := jsParseFloat_digit_head c rest hc
    have hstep : validateType (.str (String.mk (c :: rest))) "type:number" key =
        (match jsParseFloatChars (c :: rest) with
         | some n => Except.ok (JsVal.num n)
         | none => Except.error ("Field \"" ++ key ++ "\" must be a number")) := rfl
    exact ⟨n, by rw [hstep, hn]⟩
  · intro key c rest hc hx
    obtain ⟨m, hm⟩ := jsParseInt_digit_head c rest hc hx
    have hstep : validateType (.str (String.mk (c :: rest))) "type:integer" key =
        (match jsParseIntChars (c :: rest) with
         | some m => Except.ok (JsVal.num (.fin m 0))
         | none => Except.error ("Field \"" ++ key ++ "\" must be an integer")) := rfl
    exact ⟨m, by rw [hstep, hm]⟩

theorem validateType_numeric_prefix_amended_witness :
    (∃ n, validateType (.str (String.mk ('4' :: "2kg".data))) "type:number" "w" =
      .ok (.num n)) ∧
    (∃ m, validateType (.str (String.mk ('4' :: "2kg".data))) "type:integer" "w" =
      .ok (.num (.fin m 0))) :=
  ⟨validateType_numeric_prefix_amended.2.2.2.2.2.1 "w" '4' "2kg".data (by decide),
   validateType_numeric_prefix_amended.2.2.2.2.2.2 "w" '4' "2kg".data (by decide) (by decide)⟩

end JsonGen

namespace JsonGen

/-! ## C7: the key-wrapping template

`wrapFormatSpec` renders the spec's description directly: objects map each
field to the wrapped key, arrays map elements at `level + 1`, leaves become
`<annotation>`.  `wrapFormat` (from the source) builds objects by repeated
property assignment into a fresh accumulator instead; the two agree when no
two wrapped keys collide, which `wfKeys` (distinct keys at every object
node) guarantees. -/

mutual
/-- The spec's rendering of `_wrapFormat`. -/
def wrapFormatSpec (delim : String) : JsVal → Nat → JsVal
  | .arr items, level => .arr (wrapItemsSpec delim items level)
  | .obj fs, level => .obj (wrapFieldsSpec delim fs level)
  | leaf, _ => .str (String.mk ('<' :: jsToStringChars leaf ++ ['>']))
def wrapItemsSpec (delim : String) : JsItems → Nat → JsItems
  | .nil, _ => .nil
  | .cons x xs, level =>
      .cons (wrapFormatSpec delim x (level + 1)) (wrapItemsSpec delim xs level)
def wrapFieldsSpec (delim : String) : JsFields → Nat → JsFields
  | .nil, _ => .nil
  | .cons k v rest, level =>
      .cons (String.mk (repeatChars delim.data level ++ k.data ++ repeatChars delim.data level))
        (wrapFormatSpec delim v (level + 1))
        (wrapFieldsSpec delim rest level)
end

mutual
/-- Every object node of the tree has pairwise-distinct keys. -/
def wfKeys : JsVal → Bool
  | .arr xs => wfKeysItems xs
  | .obj fs => wfKeysFields fs
  | _ => true
def wfKeysItems : JsItems → Bool
  | .nil => true
  | .cons x xs => wfKeys x && wfKeysItems xs
def wfKeysFields : JsFields → Bool
  | .nil => true
  | .cons k v rest => !(JsFields.keys rest).contains k && wfKeys v && wfKeysFields rest
end

theorem wrapKey_inj (d : String) (L : Nat) (k1 k2 : String)
    (h : String.mk (repeatChars d.data L ++ k1.data ++ repeatChars d.data L) =
         String.mk (repeatChars d.data L ++ k2.data ++ repeatChars d.data L)) : k1 = k2 := by
  have hd : (repeatChars d.data L ++ k1.data) ++ repeatChars d.data L =
      (repeatChars d.data L ++ k2.data) ++ repeatChars d.data L := congrArg String.data h
  exact strEq_of_data _ _ (List.append_cancel_left (List.append_cancel_right hd))

mutual
theorem wrapFormat_spec (d : String) : ∀ (v : JsVal) (L : Nat),
    wfKeys v = true → wrapFormat d v L = wrapFormatSpec d v L
  | .arr xs, L, h => by
      show JsVal.arr (wrapItems d xs L) = .arr (wrapItemsSpec d xs L)
      rw [wrapItems_spec d xs L h]
  | .obj fs, L, h => by
      show JsVal.obj (wrapFields d fs L .nil) = .obj (wrapFieldsSpec d fs L)
      rw [wrapFields_go d fs L .nil h (fun k hk hmem => (List.not_mem_nil _) hmem)]
      rfl
  | .str s, L, h => rfl
  | .num n, L, h => rfl
  | .bool b, L, h => rfl
  | .null, L, h => rfl
  | .undef, L, h => rfl
theorem wrapItems_spec (d : String) : ∀ (xs : JsItems) (L : Nat),
    wfKeysItems xs = true → wrapItems d xs L = wrapItemsSpec d xs L
  | .nil, L, h => rfl
  | .cons x xs, L, h => by
      have hA : wfKeys x = true ∧ wfKeysItems xs = true := by
        have h2 := h
        simp only [wfKeysItems, Bool.and_eq_true] at h2
        exact h2
      show JsItems.cons (wrapFormat d x (L + 1)) (wrapItems d xs L) =
        .cons (wrapFormatSpec d x (L + 1)) (wrapItemsSpec d xs L)
      rw [wrapFormat_spec d x (L + 1) hA.1, wrapItems_spec d xs L hA.2]
theorem wrapFields_go (d : String) : ∀ (fs : JsFields) (L : Nat) (acc : JsFields),
    wfKeysFields fs = true →
    (∀ k, k ∈ fs.keys →
      (String.mk (repeatChars d.data L ++ k.data ++ repeatChars d.data L)) ∉ acc.keys) →
    wrapFields d fs L acc = fieldsAppend acc (wrapFieldsSpec d fs L)
  | .nil, L, acc, _, _ => (fieldsAppend_nil acc).symm
  | .cons k v rest, L, acc, h, hacc => by
      have hB : ((JsFields.keys rest).contains k = false ∧ wfKeys v = true) ∧
          wfKeysFields rest = true := by
        have h2 := h
        simp only [wfKeysFields, Bool.and_eq_true, Bool.not_eq_true'] at h2
        exact h2
      have hknotin : k ∉ JsFields.keys rest := by
        intro hin
        have hc : (JsFields.keys rest).contains k = true := List.elem_eq_true_of_mem hin
        rw [hB.1.1] at hc
        cases hc
      have hkmem : k ∈ (JsFields.cons k v rest).keys := by
        show k ∈ k :: JsFields.keys rest
        exact List.mem_cons_self k _
      have hW := objInsert_not_mem acc
        (String.mk (repeatChars d.data L ++ k.data ++ repeatChars d.data L))
        (wrapFormat d v (L + 1)) (hacc k hkmem)
      have hacc2 : ∀ k2, k2 ∈ rest.keys →
          (String.mk (repeatChars d.data L ++ k2.data ++ repeatChars d.data L)) ∉
            (fieldsAppend acc
              (.cons (String.mk (repeatChars d.data L ++ k.data ++ repeatChars d.data L))
                (wrapFormat d v (L + 1)) .nil)).keys := by
        intro k2 hk2
        rw [fieldsAppend_keys]
        intro hmem
        rcases List.mem_append.mp hmem with hX | hY
        · exact hacc k2 (by
            show k2 ∈ k :: JsFields.keys rest
            exact List.mem_cons_of_mem k hk2) hX
        · have heq : String.mk (repeatChars d.data L ++ k2.data ++ repeatChars d.data L) =
              String.mk (repeatChars d.data L ++ k.data ++ repeatChars d.data L) := by
            simpa [JsFields.keys] using hY
          have hk2k : k2 = k := wrapKey_inj d L k2 k heq
          exact hknotin (hk2k ▸ hk2)
      show wrapFields d rest L
          (objInsert acc (String.mk (repeatChars d.data L ++ k.data ++ repeatChars d.data L))
            (wrapFormat d v (L + 1))) =
        fieldsAppend acc
          (.cons (String.mk (repeatChars d.data L ++ k.data ++ repeatChars d.data L))
            (wrapFormatSpec d v (L + 1)) (wrapFieldsSpec d rest L))
      rw [hW, wrapFields_go d rest L _ hB.2 hacc2, fieldsAppend_assoc]
      show fieldsAppend acc
          (.cons (String.mk (repeatChars d.data L ++ k.data ++ repeatChars d.data L))
            (wrapFormat d v (L + 1)) (wrapFieldsSpec d rest L)) = _
      rw [wrapFormat_spec d v (L + 1) hB.1.2]
end

end JsonGen

namespace JsonGen

/-- C7: for every schema tree whose object nodes have distinct keys, the
wrapped template built by `_wrapFormat` (repeated property assignment into a
fresh object) is exactly the spec's rendering `wrapFormatSpec`: each object
key becomes the delimiter repeated `level` times on both sides of the key,
with level 1 at the root and incremented by one per nesting step; arrays map
their elements at `level + 1` wrapping no key; every leaf annotation is
rendered as `<annotation>`. -/
theorem wrapFormat_keys (d : String) (schema : JsVal) (h : wfKeys schema = true) :
    wrapFormat d schema 1 = wrapFormatSpec d schema 1 :=
  wrapFormat_spec d schema 1 h

theorem wrapFormat_keys_witness :
    wfKeys (JsVal.obj (.cons "name" (.str "type:string")
      (.cons "tags" (.arr (.cons (.str "type:string") .nil))
        (.cons "info" (.obj (.cons "age" (.str "type:integer") .nil)) .nil)))) = true ∧
    wrapFormat "###" (JsVal.obj (.cons "name" (.str "type:string")
      (.cons "tags" (.arr (.cons (.str "type:string") .nil))
        (.cons "info" (.obj (.cons "age" (.str "type:integer") .nil)) .nil)))) 1 =
    wrapFormatSpec "###" (JsVal.obj (.cons "name" (.str "type:string")
      (.cons "tags" (.arr (.cons (.str "type:string") .nil))
        (.cons "info" (.obj (.cons "age" (.str "type:integer") .nil)) .nil)))) 1 :=
  ⟨rfl,
   wrapFormat_keys "###" (JsVal.obj (.cons "name" (.str "type:string")
     (.cons "tags" (.arr (.cons (.str "type:string") .nil))
       (.cons "info" (.obj (.cons "age" (.str "type:integer") .nil)) .nil)))) rfl⟩

end JsonGen

namespace JsonGen

/-! ## C8: idempotence of validation on conformant data -/

theorem jsParseFloat_num_roundtrip (n : JsNum) (hn : IsNormNum n) :
    jsParseFloat (jsToString (.num n)) = some n := by
  rw [jsToString_num]
  show jsParseFloatChars (jsNumToChars n) = some n
  exact jsParseFloatChars_roundtrip hn

theorem jsParseInt_fin_roundtrip (m : Int) (hsmall : m.natAbs < 10 ^ 21) :
    jsParseInt (jsToString (.num (.fin m 0))) = some m := by
  have hlen : (natToDigits m.natAbs).length ≤ 21 :=
    natToDigits_length_le hsmall (by omega)
  have hrender : finToChars m 0 = intToChars m := by
    unfold finToChars
    rw [if_pos ⟨by push_cast; omega, by push_cast; omega⟩, if_pos rfl]
  show jsParseIntChars (jsNumToChars (.fin m 0)) = some m
  rw [show jsNumToChars (JsNum.fin m 0) = finToChars m 0 from rfl, hrender]
  exact jsParseIntChars_int m

mutual
/-- No number of magnitude `1e21` or more among the integer-valued numbers
of a tree: the sufficient condition under which every leaf re-coercion is
stable (above it, `String()` renders exponentially and `parseInt` truncates
at the `e`). -/
def smallIntNums : JsVal → Bool
  | .num (.fin m 0) => decide (m.natAbs < 10 ^ 21)
  | .num (.fin _ (_ + 1)) => true
  | .num (.inf _) => true
  | .str _ => true
  | .bool _ => true
  | .null => true
  | .undef => true
  | .arr xs => smallIntNumsItems xs
  | .obj fs => smallIntNumsFields fs
def smallIntNumsItems : JsItems → Bool
  | .nil => true
  | .cons x xs => smallIntNums x && smallIntNumsItems xs
def smallIntNumsFields : JsFields → Bool
  | .nil => true
  | .cons _ v rest => smallIntNums v && smallIntNumsFields rest
end

theorem coerceBoolean_idem (v : JsVal) (key : String) (r : JsVal)
    (h : coerceBoolean v key = .ok r) : coerceBoolean r key = .ok r := by
  cases v with
  | str s =>
      simp only [coerceBoolean] at h
      by_cases hb1 : s.data.map lowerChar = "true".data
      · rw [if_pos hb1] at h
        injection h with hr
        subst hr
        rfl
      · rw [if_neg hb1] at h
        by_cases hb2 : s.data.map lowerChar = "false".data
        · rw [if_pos hb2] at h
          injection h with hr
          subst hr
          rfl
        · rw [if_neg hb2] at h
          cases h
  | bool b =>
      simp only [coerceBoolean] at h
      injection h with hr
      subst hr
      rfl
  | num n => simp only [coerceBoolean] at h; cases h
  | null => simp only [coerceBoolean] at h; cases h
  | undef => simp only [coerceBoolean] at h; cases h
  | arr xs => simp only [coerceBoolean] at h; cases h
  | obj fs => simp only [coerceBoolean] at h; cases h

theorem coerceParsedArray_ok (q : Except String JsVal) (key : String) (r : JsVal)
    (h : coerceParsedArray q key = .ok r) : ∃ ys, r = .arr ys := by
  cases q with
  | ok w =>
      cases w with
      | arr ys =>
          simp only [coerceParsedArray] at h
          injection h with hr
          exact ⟨ys, hr.symm⟩
      | str s => simp only [coerceParsedArray] at h; cases h
      | num n => simp only [coerceParsedArray] at h; cases h
      | bool b => simp only [coerceParsedArray] at h; cases h
      | null => simp only [coerceParsedArray] at h; cases h
      | undef => simp only [coerceParsedArray] at h; cases h
      | obj fs => simp only [coerceParsedArray] at h; cases h
  | error e => simp only [coerceParsedArray] at h; cases h

theorem coerceArray_idem (v : JsVal) (key : String) (r : JsVal)
    (h : coerceArray v key = .ok r) : coerceArray r key = .ok r := by
  have harr : ∃ ys, r = .arr ys := by
    cases v with
    | arr xs =>
        simp only [coerceArray] at h
        injection h with hr
        exact ⟨xs, hr.symm⟩
    | str s => exact coerceParsedArray_ok _ key r (by simpa [coerceArray] using h)
    | num n => exact coerceParsedArray_ok _ key r (by simpa [coerceArray] using h)
    | bool b => exact coerceParsedArray_ok _ key r (by simpa [coerceArray] using h)
    | null => exact coerceParsedArray_ok _ key r (by simpa [coerceArray] using h)
    | undef => exact coerceParsedArray_ok _ key r (by simpa [coerceArray] using h)
    | obj fs => exact coerceParsedArray_ok _ key r (by simpa [coerceArray] using h)
  obtain ⟨ys, hr⟩ := harr
  subst hr
  rfl

end JsonGen

namespace JsonGen

theorem coerceByKind_idem (ts : List Char) (v : JsVal) (key : String) (r : JsVal)
    (hsm : smallIntNums r = true)
    (h : coerceByKind ts v key = .ok r) : coerceByKind ts r key = .ok r := by
  unfold coerceByKind at h ⊢
  by_cases h1 : ts.map lowerChar = "string".data ∨ ts.map lowerChar = "str".data
  · rw [if_pos h1] at h ⊢
    injection h with hr
    subst hr
    rw [jsToString_str]
  · rw [if_neg h1] at h ⊢
    by_cases h2 : ts.map lowerChar = "number".data ∨ ts.map lowerChar = "float".data
    · rw [if_pos h2] at h ⊢
      cases hp : jsParseFloat (jsToString v) with
      | none => simp only [hp] at h; cases h
      | some n =>
          simp only [hp] at h
          injection h with hr
          subst hr
          rw [jsParseFloat_num_roundtrip n (jsParseFloatChars_norm hp)]
    · rw [if_neg h2] at h ⊢
      by_cases h3 : ts.map lowerChar = "integer".data ∨ ts.map lowerChar = "int".data
      · rw [if_pos h3] at h ⊢
        cases hp : jsParseInt (jsToString v) with
        | none => simp only [hp] at h; cases h
        | some m =>
            simp only [hp] at h
            injection h with hr
            subst hr
            rw [jsParseInt_fin_roundtrip m (of_decide_eq_true hsm)]
      · rw [if_neg h3] at h ⊢
        by_cases h4 : ts.map lowerChar = "boolean".data ∨ ts.map lowerChar = "bool".data
        · rw [if_pos h4] at h ⊢
          exact coerceBoolean_idem v key r h
        · rw [if_neg h4] at h ⊢
          by_cases h5 : ts.map lowerChar = "array".data ∨ ts.map lowerChar = "list".data
          · rw [if_pos h5] at h ⊢
            exact coerceArray_idem v key r h
          · rw [if_neg h5] at h ⊢
            by_cases h6 : "enum[".data.isPrefixOf ts = true
            · rw [if_pos h6] at h ⊢
              by_cases hm : enumCheck v ts = true
              · rw [if_pos hm] at h
                injection h with hr
                subst hr
                rw [if_pos hm]
              · rw [if_neg hm] at h
                cases h
            · rw [if_neg h6] at h ⊢

theorem validateType_idem (v : JsVal) (ann key : String) (r : JsVal)
    (hsm : smallIntNums r = true)
    (h : validateType v ann key = .ok r) : validateType r ann key = .ok r := by
  unfold validateType at h ⊢
  by_cases hp : "type:".data.isPrefixOf ann.data = true
  · rw [if_pos hp] at h ⊢
    exact coerceByKind_idem _ v key r hsm h
  · rw [if_neg hp] at h ⊢

theorem exceptMapItems_idem (V : JsVal → Except String JsVal)
    (hV : ∀ x q, smallIntNums q = true → V x = .ok q → V q = .ok q) :
    ∀ (xs rs : JsItems), smallIntNumsItems rs = true →
      exceptMapItems V xs = .ok rs → exceptMapItems V rs = .ok rs
  | .nil, rs, _, h => by cases h; rfl
  | .cons x xs, rs, hsm, h => by
      simp only [exceptMapItems] at h
      cases hv : V x with
      | error m => simp only [hv] at h; cases h
      | ok q =>
          simp only [hv] at h
          cases hrest : exceptMapItems V xs with
          | error m => simp only [hrest] at h; cases h
          | ok vs =>
              simp only [hrest] at h
              injection h with hr
              subst hr
              have hsm2 : smallIntNums q = true ∧ smallIntNumsItems vs = true := by
                have h2 := hsm
                simp only [smallIntNumsItems, Bool.and_eq_true] at h2
                exact h2
              simp only [exceptMapItems, hV x q hsm2.1 hv,
                exceptMapItems_idem V hV xs vs hsm2.2 hrest]

end JsonGen

namespace JsonGen

/-- A property whose key no declared field mentions does not affect the
declared-fields loop. -/
theorem fieldsGo_front {V : JsVal → JsVal → Except String JsVal} {a : JsFields}
    {e : String} {w : JsVal} :
    ∀ fs : JsFields, e ∉ fs.keys →
      validateFieldsGo V (.obj (.cons e w a)) fs = validateFieldsGo V (.obj a) fs
  | .nil, _ => rfl
  | .cons k sv rest, he => by
      have hke : e ≠ k := by
        intro hh
        exact he (by simp [JsFields.keys, hh])
      have herest : e ∉ rest.keys := fun hh => he (by simp [JsFields.keys, hh])
      simp only [validateFieldsGo]
      rw [show propLookup (JsVal.obj (.cons e w a)) k = lookupField a k from by
            show (if e = k then some w else lookupField a k) = lookupField a k
            rw [if_neg hke],
          show propLookup (JsVal.obj a) k = lookupField a k from rfl,
          fieldsGo_front rest herest]

theorem wfKeysFields_nodup : ∀ fs : JsFields, wfKeysFields fs = true → fs.keys.Nodup
  | .nil, _ => List.nodup_nil
  | .cons k v rest, h => by
      have hB : ((JsFields.keys rest).contains k = false ∧ wfKeys v = true) ∧
          wfKeysFields rest = true := by
        have h2 := h
        simp only [wfKeysFields, Bool.and_eq_true, Bool.not_eq_true'] at h2
        exact h2
      show (k :: JsFields.keys rest).Nodup
      rw [List.nodup_cons]
      refine ⟨?_, wfKeysFields_nodup rest hB.2⟩
      intro hin
      have hc : (JsFields.keys rest).contains k = true := List.elem_eq_true_of_mem hin
      rw [hB.1.1] at hc
      cases hc

theorem wf_field_val : ∀ fs : JsFields, wfKeysFields fs = true →
    ∀ kv ∈ JsFields.toList fs, wfKeys kv.2 = true
  | .nil, _, kv, hkv => by simp [JsFields.toList] at hkv
  | .cons k v rest, h, kv, hkv => by
      have hB : ((JsFields.keys rest).contains k = false ∧ wfKeys v = true) ∧
          wfKeysFields rest = true := by
        have h2 := h
        simp only [wfKeysFields, Bool.and_eq_true, Bool.not_eq_true'] at h2
        exact h2
      rw [show JsFields.toList (.cons k v rest) = (k, v) :: JsFields.toList rest from rfl]
        at hkv
      rcases List.mem_cons.mp hkv with he | hm
      · rw [he]
        exact hB.1.2
      · exact wf_field_val rest hB.2 kv hm

theorem wfKeys_headItem (ss : JsItems) (h : wfKeys (.arr ss) = true) :
    wfKeys (headItem ss) = true := by
  cases ss with
  | nil => rfl
  | cons x xs =>
      have h2 : wfKeys x = true ∧ wfKeysItems xs = true := by
        have h3 := h
        simp only [wfKeys, wfKeysItems, Bool.and_eq_true] at h3
        exact h3
      exact h2.1

theorem fieldsGo_idem (V : JsVal → JsVal → Except String JsVal) :
    ∀ (fs : JsFields) (data : JsVal) (ps : JsFields),
      validateFieldsGo V data fs = .ok ps →
      smallIntNumsFields ps = true →
      fs.keys.Nodup →
      (∀ kv, kv ∈ JsFields.toList fs → ∀ dv q, smallIntNums q = true →
        V dv kv.2 = .ok q → V q kv.2 = .ok q) →
      validateFieldsGo V (.obj ps) fs = .ok ps
  | .nil, data, ps, h, _, _, _ => by cases h; rfl
  | .cons k sv rest, data, ps, h, hpsm, hnd, hstab => by
      simp only [validateFieldsGo] at h
      cases hp : propLookup data k with
      | none => simp only [hp] at h; cases h
      | some dv =>
          simp only [hp] at h
          cases hv : V dv sv with
          | error m => simp only [hv] at h; cases h
          | ok v1 =>
              simp only [hv] at h
              cases hrest : validateFieldsGo V data rest with
              | error m => simp only [hrest] at h; cases h
              | ok vs =>
                  simp only [hrest] at h
                  injection h with hps
                  subst hps
                  have hsm2 : smallIntNums v1 = true ∧ smallIntNumsFields vs = true := by
                    have h2 := hpsm
                    simp only [smallIntNumsFields, Bool.and_eq_true] at h2
                    exact h2
                  have hnd2 : k ∉ rest.keys ∧ rest.keys.Nodup := by
                    rw [show (JsFields.cons k sv rest).keys = k :: JsFields.keys rest
                      from rfl] at hnd
                    exact ⟨(List.nodup_cons.mp hnd).1, (List.nodup_cons.mp hnd).2⟩
                  have hply : propLookup (JsVal.obj (.cons k v1 vs)) k = some v1 := by
                    show (if k = k then some v1 else lookupField vs k) = some v1
                    rw [if_pos rfl]
                  have hVv : V v1 sv = .ok v1 :=
                    hstab (k, sv) (by simp [JsFields.toList]) dv v1 hsm2.1 hv
                  have hfront : validateFieldsGo V (JsVal.obj (.cons k v1 vs)) rest =
                      validateFieldsGo V (.obj vs) rest := fieldsGo_front rest hnd2.1
                  have hrec : validateFieldsGo V (JsVal.obj vs) rest = .ok vs :=
                    fieldsGo_idem V rest data vs hrest hsm2.2 hnd2.2
                      (fun kv hkv => hstab kv (by
                        rw [show JsFields.toList (.cons k sv rest) =
                          (k, sv) :: JsFields.toList rest from rfl]
                        exact List.mem_cons_of_mem _ hkv))
                  simp only [validateFieldsGo, hply, hVv, hfront, hrec]

end JsonGen

namespace JsonGen

theorem validateSchema_idem_aux : ∀ (n : Nat) (schema : JsVal), jsSize schema ≤ n →
    wfKeys schema = true → ∀ (data r : JsVal), smallIntNums r = true →
    validateSchema data schema = .ok r →
    validateSchema r schema = .ok r := by
  intro n
  induction n with
  | zero =>
      intro schema hsz
      exact absurd hsz (by have := jsSize_pos schema; omega)
  | succ n ih =>
      intro schema hsz hwf data r hsm h
      cases schema with
      | str s =>
          rw [validateSchema_str] at h ⊢
          by_cases hp : "type:".data.isPrefixOf s.data = true
          · rw [if_pos hp] at h ⊢
            exact validateType_idem data s "field" r hsm h
          · rw [if_neg hp] at h ⊢
      | num m => rw [validateSchema_num] at h ⊢
      | bool b => rw [validateSchema_bool] at h ⊢
      | null => rw [validateSchema_null] at h ⊢
      | undef => rw [validateSchema_undef] at h ⊢
      | arr ss =>
          cases data with
          | arr ds =>
              rw [validateSchema_arr_arr] at h
              obtain ⟨rs, hrs, hr⟩ := exceptMap_ok _ _ _ h
              subst hr
              rw [validateSchema_arr_arr]
              have hidem : exceptMapItems (fun d => validateSchema d (headItem ss)) rs =
                  .ok rs := by
                refine exceptMapItems_idem _ ?_ ds rs hsm hrs
                intro x q hqs hq
                have hsz2 : jsSize (headItem ss) ≤ n := by
                  have h1 := headItem_size_lt ss
                  omega
                exact ih (headItem ss) hsz2 (wfKeys_headItem ss hwf) x q hqs hq
              rw [hidem]
              rfl
          | str s => rw [validateSchema_arr_other _ _ (fun xs hx => by cases hx)] at h; cases h
          | num m => rw [validateSchema_arr_other _ _ (fun xs hx => by cases hx)] at h; cases h
          | bool b => rw [validateSchema_arr_other _ _ (fun xs hx => by cases hx)] at h; cases h
          | null => rw [validateSchema_arr_other _ _ (fun xs hx => by cases hx)] at h; cases h
          | undef => rw [validateSchema_arr_other _ _ (fun xs hx => by cases hx)] at h; cases h
          | obj ds => rw [validateSchema_arr_other _ _ (fun xs hx => by cases hx)] at h; cases h
      | obj fs =>
          have hnd : fs.keys.Nodup := wfKeysFields_nodup fs hwf
          have hstab : ∀ kv, kv ∈ JsFields.toList fs → ∀ dv q, smallIntNums q = true →
              validateSchema dv kv.2 = .ok q → validateSchema q kv.2 = .ok q := by
            intro kv hkv dv q hqs hq
            have hsz2 : jsSize kv.2 ≤ n := by
              have h1 := fieldVal_size_lt fs kv hkv
              omega
            exact ih kv.2 hsz2 (wf_field_val fs hwf kv hkv) dv q hqs hq
          cases data with
          | obj ds =>
              rw [validateSchema_obj_obj] at h
              obtain ⟨ps, hps, hr⟩ := exceptMap_ok _ _ _ h
              have hkeys : ps.keys = fs.keys := validateFieldsGo_keys fs hps
              have hfp : objFromPairs ps = ps :=
                objFromPairs_of_nodup ps (by rw [hkeys]; exact hnd)
              rw [hfp] at hr
              subst hr
              rw [validateSchema_obj_obj,
                fieldsGo_idem _ fs (.obj ds) ps hps hsm hnd hstab]
              simp [Except.map, hfp]
          | arr ds =>
              rw [validateSchema_obj_arr] at h
              obtain ⟨ps, hps, hr⟩ := exceptMap_ok _ _ _ h
              have hkeys : ps.keys = fs.keys := validateFieldsGo_keys fs hps
              have hfp : objFromPairs ps = ps :=
                objFromPairs_of_nodup ps (by rw [hkeys]; exact hnd)
              rw [hfp] at hr
              subst hr
              rw [validateSchema_obj_obj,
                fieldsGo_idem _ fs (.arr ds) ps hps hsm hnd hstab]
              simp [Except.map, hfp]
          | str s =>
              rw [validateSchema_obj_other _ _ (fun ds hx => by cases hx)
                (fun xs hx => by cases hx)] at h
              cases h
          | num m =>
              rw [validateSchema_obj_other _ _ (fun ds hx => by cases hx)
                (fun xs hx => by cases hx)] at h
              cases h
          | bool b =>
              rw [validateSchema_obj_other _ _ (fun ds hx => by cases hx)
                (fun xs hx => by cases hx)] at h
              cases h
          | null =>
              rw [validateSchema_obj_other _ _ (fun ds hx => by cases hx)
                (fun xs hx => by cases hx)] at h
              cases h
          | undef =>
              rw [validateSchema_obj_other _ _ (fun ds hx => by cases hx)
                (fun xs hx => by cases hx)] at h
              cases h

/-- C8 (counterexample): validation is NOT idempotent on conformant data.
Integer coercion of the 22-digit string "1000000000000000000000" succeeds
with the number `1e21`; re-validating that result re-renders it in JS
exponential notation ("1e+21"), and `parseInt` stops at the `e`, so the
second pass yields 1 — a structurally different result. -/
theorem validateSchema_large_int_counterexample :
    validateSchema (.obj (.cons "x" (.str "1000000000000000000000") .nil))
        (.obj (.cons "x" (.str "type:integer") .nil)) =
      .ok (.obj (.cons "x" (.num (.fin 1000000000000000000000 0)) .nil)) ∧
    jsToString (.num (.fin 1000000000000000000000 0)) = "1e+21" ∧
    validateSchema (.obj (.cons "x" (.num (.fin 1000000000000000000000 0)) .nil))
        (.obj (.cons "x" (.str "type:integer") .nil)) =
      .ok (.obj (.cons "x" (.num (.fin 1 0)) .nil)) ∧
    (JsNum.fin 1000000000000000000000 0) ≠ .fin 1 0 :=
  ⟨rfl, rfl, rfl, by decide⟩

/-- C8 (amended): `_validateSchema` is idempotent on conformant data as long
as every integer-valued number in the result is below `1e21` in magnitude
(so that no value an integer annotation re-coerces is rendered in
exponential notation). For every schema with distinct keys at each object
node — as any JavaScript object has — and every data value, if validation
succeeds with such a result `r`, then validating `r` against the same
schema succeeds and returns `r` itself. Above `1e21`, integer-annotated
values break idempotence (see the counterexample); float, string, boolean,
array and enum coercions are stable at every magnitude. -/
theorem validateSchema_idem_amended (schema data r : JsVal)
    (hwf : wfKeys schema = true) (hsm : smallIntNums r = true)
    (h : validateSchema data schema = .ok r) : validateSchema r schema = .ok r :=
  validateSchema_idem_aux (jsSize schema) schema le_rfl hwf data r hsm h

theorem validateSchema_idem_amended_witness :
    validateSchema
      (.obj (.cons "age" (.num (.fin 42 0)) (.cons "name" (.str "Ann") .nil)))
      (.obj (.cons "age" (.str "type:integer") (.cons "name" (.str "type:string") .nil))) =
    .ok (.obj (.cons "age" (.num (.fin 42 0)) (.cons "name" (.str "Ann") .nil))) :=
  validateSchema_idem_amended
    (.obj (.cons "age" (.str "type:integer") (.cons "name" (.str "type:string") .nil)))
    (.obj (.cons "age" (.str "42") (.cons "name" (.str "Ann")
      (.cons "extra" (.bool true) .nil))))
    (.obj (.cons "age" (.num (.fin 42 0)) (.cons "name" (.str "Ann") .nil)))
    rfl (by decide) rfl

end JsonGen
